import Mathlib

/-!
Sia: consensus info, gateway node table, host obligations, block database.

A shallow embedding of `modules/consensus/info.go`, `modules/gateway/nodes.go`,
`modules/host/update.go` and `blockdb/blockdb.go`, with the properties of the
specification stated over it.
-/

namespace Sia

/-! ## Go maps -/

/-- A Go map, given by its entries in the order in which one `range` loop visits
them.  The order is not fixed by the language, so statements about a loop hold
for every order.  Keys of a map are pairwise distinct (`GoMap.WF`). -/
abbrev GoMap (κ : Type) (ν : Type) := List (κ × ν)

namespace GoMap

variable {κ ν : Type} [DecidableEq κ]

/-- The keys, in `range` order. -/
def keys (m : GoMap κ ν) : List κ := m.map Prod.fst

/-- The values, in `range` order. -/
def values (m : GoMap κ ν) : List ν := m.map Prod.snd

/-- Keys are pairwise distinct. -/
def WF (m : GoMap κ ν) : Prop := m.keys.Nodup

instance (m : GoMap κ ν) : Decidable m.WF := by unfold WF; infer_instance

/-- The Go expression `len(m)`. -/
def len (m : GoMap κ ν) : Nat := m.length

/-- The Go expression `v, exists := m[k]`, with `none` for `exists = false`. -/
def get? : GoMap κ ν → κ → Option ν
  | [], _ => none
  | (k0, v) :: rest, k => if k0 = k then some v else get? rest k

/-- The Go expression `_, exists := m[k]`. -/
def contains (m : GoMap κ ν) (k : κ) : Bool := (m.get? k).isSome

/-- The Go expression `m[k]`: the zero value of the value type when the key is missing. -/
def getD (m : GoMap κ ν) (k : κ) (zero : ν) : ν := (m.get? k).getD zero

/-- The Go statement `m[k] = v`: the value of an existing key is replaced, a new
key gets an entry. -/
def set : GoMap κ ν → κ → ν → GoMap κ ν
  | [], k, v => [(k, v)]
  | (k0, v0) :: rest, k, v => if k0 = k then (k, v) :: rest else (k0, v0) :: set rest k v

/-- The Go statement `delete(m, k)`; nothing happens when the key is missing. -/
def delete : GoMap κ ν → κ → GoMap κ ν
  | [], _ => []
  | (k0, v0) :: rest, k => if k0 = k then delete rest k else (k0, v0) :: delete rest k

end GoMap

/-! ## Consensus state (`modules/consensus/info.go`) -/

/-- A `crypto.Hash` (32 bytes), represented by its numerical value: the order of
`crypto.HashSlice` is the order of these numbers, and the zero value is `0`. -/
abbrev Hash := Nat

abbrev BlockID := Hash
abbrev SiacoinOutputID := Hash
abbrev SiafundOutputID := Hash
abbrev FileContractID := Hash

/-- A `types.BlockHeight`, an unsigned 64-bit integer. -/
abbrev BlockHeight := Nat

/-- Unsigned 64-bit wrap-around. -/
def wrap64 (x : Int) : Nat := (x % 2 ^ 64).toNat

/-- Modelled from the spec: `types.SiacoinOutput`, a value and a spend condition. -/
structure SiacoinOutput where
  Value : Nat
  UnlockHash : Hash
  deriving DecidableEq, Repr

/-- Modelled from the spec: `types.SiafundOutput`, a value and a spend condition. -/
structure SiafundOutput where
  Value : Nat
  UnlockHash : Hash
  deriving DecidableEq, Repr

/-- The Go zero value of `types.SiacoinOutput`. -/
def SiacoinOutput.zero : SiacoinOutput := ⟨0, 0⟩

/-- The Go zero value of `types.SiafundOutput`. -/
def SiafundOutput.zero : SiafundOutput := ⟨0, 0⟩

/-- Modelled from the spec: `modules.SiacoinOutputDiff`, a direction, an ID and an output. -/
structure SiacoinOutputDiff where
  New : Bool
  ID : SiacoinOutputID
  SiacoinOutput : SiacoinOutput
  deriving DecidableEq, Repr

/-- Modelled from the spec: `types.Block`, reduced to its header fields. -/
structure Block where
  ParentID : BlockID
  Nonce : Nat
  Timestamp : Nat
  deriving DecidableEq, Repr

/-- The fields of `blockNode` that `info.go` reads. -/
structure blockNode where
  block : Block
  height : BlockHeight
  diffsGenerated : Bool
  siacoinOutputDiffs : List SiacoinOutputDiff
  deriving DecidableEq, Repr

/-- The fields of `State` that `info.go` reads. -/
structure State where
  blockMap : GoMap BlockID blockNode
  currentPath : List BlockID
  siacoinOutputs : GoMap SiacoinOutputID SiacoinOutput
  siafundOutputs : GoMap SiafundOutputID SiafundOutput
  deriving DecidableEq, Repr

/-- An `error` value; `none` is `nil`. -/
abbrev GoError := Option String

/-- The call `sort.Sort` on a `crypto.HashSlice`: the hashes in ascending order. -/
def sortHashSlice (hs : List Hash) : List Hash := hs.insertionSort (fun a b => a ≤ b)

/-- The method `State.output`: the output and whether it exists. -/
def State.output (s : State) (id : SiacoinOutputID) : SiacoinOutput × Bool :=
  (s.siacoinOutputs.getD id SiacoinOutput.zero, s.siacoinOutputs.contains id)

/-- The method `State.sortedUscoSet`. -/
def State.sortedUscoSet (s : State) : List SiacoinOutput :=
  -- unspentOutputs := make(crypto.HashSlice, len(s.siacoinOutputs))
  let unspentOutputs : List Hash := List.replicate s.siacoinOutputs.len 0
  -- for outputID := range s.siacoinOutputs: unspentOutputs = append(unspentOutputs, outputID)
  let unspentOutputs := s.siacoinOutputs.keys.foldl (fun acc outputID => acc ++ [outputID]) unspentOutputs
  -- sort.Sort(unspentOutputs)
  let unspentOutputs := sortHashSlice unspentOutputs
  -- sortedOutputs[i] = output, for i, outputID := range unspentOutputs
  unspentOutputs.map (fun outputID => (s.output outputID).1)

/-- The second loop of `State.sortedUsfoSet`; `none` is the panic of the sanity check. -/
def sortedUsfoLoop (DEBUG : Bool) (s : State) : List Hash → Option (List SiafundOutput)
  | [] => some []
  | outputID :: rest =>
    let output := s.siafundOutputs.getD outputID SiafundOutput.zero
    let found := s.siafundOutputs.contains outputID
    if DEBUG && !found then none
    else (sortedUsfoLoop DEBUG s rest).map (fun outs => output :: outs)

/-- The method `State.sortedUsfoSet`, for a build with the given `build.DEBUG`;
`none` is a panic. -/
def State.sortedUsfoSet (DEBUG : Bool) (s : State) : Option (List SiafundOutput) :=
  let outputIDs : List Hash := List.replicate s.siafundOutputs.len 0
  let outputIDs := s.siafundOutputs.keys.foldl (fun acc outputID => acc ++ [outputID]) outputIDs
  let outputIDs := sortHashSlice outputIDs
  sortedUsfoLoop DEBUG s outputIDs

/-- The method `State.BlockOutputDiffs`: the pair `(scods, err)`. -/
def State.BlockOutputDiffs (s : State) (id : BlockID) : List SiacoinOutputDiff × GoError :=
  match s.blockMap.get? id with
  | none => ([], some "requested an unknown block")
  | some node =>
    if !node.diffsGenerated then
      ([], some "diffs have not been generated for the requested block")
    else
      (node.siacoinOutputDiffs, none)

/-! ## Gateway node table (`modules/gateway/nodes.go`) -/

/-- A `modules.NetAddress`, a string of the form `host:port`. -/
abbrev NetAddress := String

def maxSharedNodes : Nat := 10
def maxAddrLength : Nat := 100
def minPeers : Nat := 3

/-- The fields of `Gateway` that `nodes.go` uses: the node set and the log. -/
structure Gateway where
  nodes : GoMap NetAddress Unit
  log : List String
  deriving DecidableEq, Repr

/-- The method `Gateway.addNode`: the gateway afterwards and the returned error. -/
def Gateway.addNode (g : Gateway) (addr : NetAddress) : Gateway × GoError :=
  if g.nodes.contains addr then
    (g, some "node already added")
  else
    ({ nodes := g.nodes.set addr (), log := g.log ++ ["INFO: added node " ++ addr] }, none)

/-- The method `Gateway.removeNode`: the gateway afterwards and the returned error. -/
def Gateway.removeNode (g : Gateway) (addr : NetAddress) : Gateway × GoError :=
  if !g.nodes.contains addr then
    (g, some "no record of that node")
  else
    ({ nodes := g.nodes.delete addr, log := g.log ++ ["INFO: removed node " ++ addr] }, none)

/-- The loop of `Gateway.shareNodes` over the keys still to visit, with the
slice `nodes` built so far. -/
def shareNodesLoop : List NetAddress → List NetAddress → List NetAddress
  | [], nodes => nodes
  | node :: rest, nodes =>
    if nodes.length = maxSharedNodes then nodes  -- break
    else shareNodesLoop rest (nodes ++ [node])

/-- The method `Gateway.shareNodes`: the gateway afterwards, the object handed to
`encoding.WriteObject`, and the returned error, which is the one `WriteObject`
gives (`writeErr`). -/
def Gateway.shareNodes (g : Gateway) (writeErr : GoError) :
    Gateway × List NetAddress × GoError :=
  let nodes := shareNodesLoop g.nodes.keys []
  (g, nodes, writeErr)

/-- A call `go g.Broadcast(name, addr)` that was started. -/
structure BroadcastCall where
  name : String
  addr : NetAddress
  deriving DecidableEq, Repr

/-- The method `Gateway.relayNode`.  The argument `read` is what
`encoding.ReadObject(conn, &addr, maxAddrLength)` gives: an error, or the address
read.  The result is the gateway afterwards, the broadcasts started, and the
returned error. -/
def Gateway.relayNode (g : Gateway) (read : Except String NetAddress) :
    Gateway × List BroadcastCall × GoError :=
  match read with
  | .error err => (g, [], some err)
  | .ok addr =>
    let (g1, err) := g.addNode addr
    if err = none then (g1, [⟨"RelayNode", addr⟩], none)
    else (g1, [], none)

/-! ## Host obligations (`modules/host/update.go`) -/

/-- Modelled from the spec: `contractObligation`, declared outside `update.go`;
an obligation is `ID`, `Path`, `FileSize`, `WindowStart`. -/
structure contractObligation where
  ID : FileContractID
  Path : String
  FileSize : Nat
  WindowStart : BlockHeight
  deriving DecidableEq, Repr

/-- The fields of `Host` that `update.go` uses.  `spaceRemaining` is touched by
`deallocate` only. -/
structure Host where
  blockHeight : BlockHeight
  obligationsByID : GoMap FileContractID contractObligation
  obligationsByHeight : GoMap BlockHeight (List contractObligation)
  spaceRemaining : Int
  deriving DecidableEq, Repr

/-- What the file system, the consensus set, the crypto package, the wallet and
the transaction pool answer during one pass of the obligation loop: the error of
each call (`none` is `nil`), and the file size `os.Stat` reports. -/
structure Answers where
  open_ : GoError            -- os.Open(fullpath)
  segment : GoError          -- h.cs.StorageProofSegment(obligation.ID)
  buildProof : GoError       -- crypto.BuildReaderProof(file, segmentIndex)
  register : GoError         -- h.wallet.RegisterTransaction
  addProof : GoError         -- h.wallet.AddStorageProof
  sign : GoError             -- h.wallet.SignTransaction
  accept : GoError           -- h.tpool.AcceptTransaction
  stat : GoError             -- os.Stat(fullpath)
  statSize : Nat             -- stat.Size()
  deriving DecidableEq, Repr

/-- Every call succeeds; the file has the given size. -/
def Answers.allOk (size : Nat) : Answers :=
  ⟨none, none, none, none, none, none, none, none, size⟩

/-- No call of the pass fails. -/
def Answers.succeeds (w : Answers) : Bool :=
  w.open_.isNone && w.segment.isNone && w.buildProof.isNone && w.register.isNone &&
  w.addProof.isNone && w.sign.isNone && w.accept.isNone && w.stat.isNone

/-- How a Go call ends: it returns, or it panics. -/
inductive Ending (α : Type) where
  | returns (a : α)
  | panics (msg : String)
  deriving DecidableEq, Repr

/-- The method `Host.createStorageProof`, for a build with the given
`build.DEBUG`: the returned error, or a panic. -/
def createStorageProof (DEBUG : Bool) (w : Answers) (_obligation : contractObligation)
    (_heightForProof : BlockHeight) : Ending GoError :=
  match w.open_ with
  | some err => .returns (some err)
  | none =>
  match w.segment with
  | some err => .returns (some err)
  | none =>
  match w.buildProof with
  | some err => .returns (some err)
  | none =>
  match w.register with
  | some err => .returns (some err)
  | none =>
  match w.addProof with
  | some err => .returns (some err)
  | none =>
  match w.sign with
  | some err => .returns (some err)
  | none =>
  match w.accept with
  | some err => if DEBUG then .panics err else .returns (some err)
  | none => .returns none

/-- Modelled from the spec: `Host.deallocate`, declared outside `update.go`; it
releases the on-disk file bytes and touches neither index. -/
def Host.deallocate (h : Host) (filesize : Nat) (_path : String) : Host :=
  { h with spaceRemaining := h.spaceRemaining + filesize }

/-- How a loop of `ReceiveConsensusSetUpdate` ends: it runs to its end, or it
executes `return`. -/
inductive LoopEnd where
  | finished (h : Host) (printed : List String) (attempt : Nat)
  | returned (h : Host) (printed : List String)
  deriving DecidableEq, Repr

/-- The inner loop of `ReceiveConsensusSetUpdate`,
`for _, obligation := range h.obligationsByHeight[h.blockHeight]`, over the
obligations still to visit.  `world k` holds the answers during the `k`-th pass
of this loop since the call started; `csHeight` is `h.cs.Height()`. -/
def obligationLoop (DEBUG : Bool) (world : Nat → Answers) (csHeight : BlockHeight) :
    List contractObligation → Host → List String → Nat → Ending LoopEnd
  | [], h, printed, attempt => .returns (.finished h printed attempt)
  | obligation :: rest, h, printed, attempt =>
    -- err := h.createStorageProof(obligation, h.cs.Height())
    match createStorageProof DEBUG (world attempt) obligation csHeight with
    | .panics msg => .panics msg
    | .returns (some err) => .returns (.returned h (printed ++ [err]))
    | .returns none =>
      -- stat, err := os.Stat(fullpath)
      match (world attempt).stat with
      | some err => .returns (.returned h (printed ++ [err]))
      | none =>
        let h := h.deallocate ((world attempt).statSize % 2 ^ 64) obligation.Path
        let h := { h with obligationsByID := h.obligationsByID.delete obligation.ID }
        obligationLoop DEBUG world csHeight rest h printed (attempt + 1)

/-- The outer loop of `ReceiveConsensusSetUpdate`, `for _ = range appliedBlocks`,
over the blocks still to visit. -/
def appliedLoop (DEBUG : Bool) (world : Nat → Answers) (csHeight : BlockHeight) :
    List Block → Host → List String → Nat → Ending LoopEnd
  | [], h, printed, attempt => .returns (.finished h printed attempt)
  | _ :: rest, h, printed, attempt =>
    -- h.blockHeight++
    let h := { h with blockHeight := (h.blockHeight + 1) % 2 ^ 64 }
    match obligationLoop DEBUG world csHeight (h.obligationsByHeight.getD h.blockHeight [])
        h printed attempt with
    | .panics msg => .panics msg
    | .returns (.returned h printed) => .returns (.returned h printed)
    | .returns (.finished h printed attempt) =>
      -- delete(h.obligationsByHeight, h.blockHeight)
      let h := { h with obligationsByHeight := h.obligationsByHeight.delete h.blockHeight }
      appliedLoop DEBUG world csHeight rest h printed attempt

/-- What `ReceiveConsensusSetUpdate` leaves behind: the host, the lines printed
with `fmt.Println`, and whether `h.updateSubscribers()` was called. -/
structure UpdateResult where
  host : Host
  printed : List String
  subscribersUpdated : Bool
  deriving DecidableEq, Repr

/-- The method `Host.ReceiveConsensusSetUpdate`, for a build with the given
`build.DEBUG`. -/
def Host.ReceiveConsensusSetUpdate (DEBUG : Bool) (world : Nat → Answers)
    (csHeight : BlockHeight) (h : Host) (revertedBlocks appliedBlocks : List Block) :
    Ending UpdateResult :=
  -- h.blockHeight -= types.BlockHeight(len(revertedBlocks))
  let h := { h with blockHeight := wrap64 ((h.blockHeight : Int) - (revertedBlocks.length : Int)) }
  match appliedLoop DEBUG world csHeight appliedBlocks h [] 0 with
  | .panics msg => .panics msg
  | .returns (.returned h printed) => .returns ⟨h, printed, false⟩
  | .returns (.finished h printed _) => .returns ⟨h, printed, true⟩

/-! ## Block database (`blockdb/blockdb.go`) -/

namespace blockdb

/-- A byte string. -/
abbrev Bytes := List Nat

/-- Modelled from the spec: `encoding.EncUint64`, declared outside `blockdb.go`;
a key is the 8-byte little-endian height. -/
def EncUint64 (x : Nat) : Bytes := (List.range 8).map (fun i => x / 256 ^ i % 256)

/-- The calls `encoding.Marshal` and `encoding.Unmarshal` on a `types.Block`,
declared outside `blockdb.go`; the block type is `β`. -/
structure Codec (β : Type) where
  Marshal : β → Bytes
  Unmarshal : Bytes → Except String β

/-- The errors of the block database: `ErrUnknownBlock`, an error of
`encoding.Unmarshal`, and an error of the bolt transaction. -/
inductive DBError where
  | ErrUnknownBlock
  | decode (msg : String)
  | bolt (msg : String)
  deriving DecidableEq, Repr

/-- The bolt bucket `chain`: its key/value pairs. -/
abbrev Bucket := GoMap Bytes Bytes

/-- The field `KeyN` of `b.Stats()`, a Go `int`: the number of keys. -/
def KeyN (b : Bucket) : Int := (b.len : Int)

/-- The Go conversion `uint64(i)` of an `int`. -/
def uint64 (i : Int) : Nat := wrap64 i

/-- The call `b.Put(key, value)`. -/
def Put (b : Bucket) (key value : Bytes) : Bucket := b.set key value

/-- The call `b.Delete(key)`; a missing key is not an error. -/
def Delete (b : Bucket) (key : Bytes) : Bucket := b.delete key

/-- The call `b.Get(key)`; `none` is `nil`. -/
def Get (b : Bucket) (key : Bytes) : Option Bytes := b.get? key

/-- The call `db.Update(fn)`: bolt either fails the transaction with `fault` and
rolls it back, or commits what `fn` did. -/
def Update (db : Bucket) (fault : Option String) (fn : Bucket → Bucket) :
    Bucket × Option DBError :=
  match fault with
  | some msg => (db, some (.bolt msg))
  | none => (fn db, none)

/-- The method `boltDB.Block`, on an open database. -/
def Block {β : Type} (c : Codec β) (db : Bucket) (height : BlockHeight) : Except DBError β :=
  let key := EncUint64 (height % 2 ^ 64)
  match Get db key with
  | none => .error .ErrUnknownBlock
  | some value =>
    match c.Unmarshal value with
    | .ok block => .ok block
    | .error msg => .error (.decode msg)

/-- The method `boltDB.AddBlock`: the database afterwards and the returned error. -/
def AddBlock {β : Type} (c : Codec β) (db : Bucket) (block : β) (fault : Option String) :
    Bucket × Option DBError :=
  let value := c.Marshal block
  Update db fault (fun b =>
    let key := EncUint64 (uint64 (KeyN b))
    Put b key value)

/-- The method `boltDB.RemoveBlock`: the database afterwards and the returned error. -/
def RemoveBlock (db : Bucket) (fault : Option String) : Bucket × Option DBError :=
  Update db fault (fun b =>
    let key := EncUint64 (uint64 (KeyN b - 1))
    Delete b key)

/-- The method `boltDB.Height`, on an open database: the pair `(height, err)`. -/
def Height (db : Bucket) : BlockHeight × Option DBError :=
  (uint64 (KeyN db), none)

/-- The keys of the bucket are exactly the heights `0 .. n-1`. -/
def HasHeights (db : Bucket) (n : Nat) : Prop :=
  db.keys.Perm ((List.range n).map EncUint64)

instance (db : Bucket) (n : Nat) : Decidable (HasHeights db n) := by
  unfold HasHeights; infer_instance

/-- A call that changes the database. -/
inductive Op (β : Type) where
  | AddBlock (block : β)
  | RemoveBlock

/-- The database after a sequence of successful calls, from `db` on. -/
def run {β : Type} (c : Codec β) : List (Op β) → Bucket → Bucket
  | [], db => db
  | .AddBlock block :: ops, db => run c ops (AddBlock c db block none).1
  | .RemoveBlock :: ops, db => run c ops (RemoveBlock db none).1

end blockdb

/-! ## Consensus: the current path (`modules/consensus/info.go`) -/

/-- The Go zero value of `types.Block`. -/
def Block.zero : Block := ⟨0, 0, 0⟩

/-- The method `State.height`: `types.BlockHeight(len(s.currentPath) - 1)`. -/
def State.height (s : State) : BlockHeight := wrap64 ((s.currentPath.length : Int) - 1)

/-- The method `State.blockAtHeight`: the pair `(b, exists)`.  An index past the
end of `currentPath` panics, and so does reading the block of a node that
`blockMap` does not hold (a nil pointer). -/
def State.blockAtHeight (s : State) (height : BlockHeight) : Ending (Block × Bool) :=
  let found := decide (height ≤ s.height)
  if found then
    match s.currentPath[height]? with
    | none => .panics "index out of range"
    | some id =>
      match s.blockMap.get? id with
      | none => .panics "nil pointer dereference"
      | some node => .returns (node.block, found)
  else .returns (Block.zero, found)

/-- The method `State.currentBlockID`. -/
def State.currentBlockID (s : State) : Ending BlockID :=
  match s.currentPath[s.height]? with
  | none => .panics "index out of range"
  | some id => .returns id

/-- The method `State.currentBlockNode`: the node pointer, `none` for nil. -/
def State.currentBlockNode (s : State) : Ending (Option blockNode) :=
  match s.currentBlockID with
  | .panics msg => .panics msg
  | .returns id => .returns (s.blockMap.get? id)

/-- The method `State.BlockAtHeight`. -/
def State.BlockAtHeight (s : State) (height : BlockHeight) : Ending (Block × Bool) :=
  s.blockAtHeight height

/-- The method `State.Height`. -/
def State.Height (s : State) : BlockHeight := s.height

/-- The method `State.CurrentBlock`. -/
def State.CurrentBlock (s : State) : Ending Block :=
  match s.currentBlockNode with
  | .panics msg => .panics msg
  | .returns none => .panics "nil pointer dereference"
  | .returns (some node) => .returns node.block

/-! ## Gateway: a random node (`modules/gateway/nodes.go`) -/

/-- Modelled from the spec: `errNoPeers`, declared outside `nodes.go`; the error
kind `NoPeers`. -/
def errNoPeers : GoError := some "no peers"

/-- The loop of `Gateway.randomNode` over the keys still to visit, with the
counter `r`: the node returned inside the loop body, or `none` when the loop
runs to its end. -/
def randomNodeLoop : List NetAddress → Int → Option NetAddress
  | [], _ => none
  | node :: rest, r => if r = 0 then some node else randomNodeLoop rest (r - 1)

/-- The node that `Gateway.randomNode` returns from inside its loop, if it does;
`r` is the value of `rand.Intn(len(g.nodes))`. -/
def Gateway.randomNodeInLoop (g : Gateway) (r : Int) : Option NetAddress :=
  if g.nodes.len > 0 then randomNodeLoop g.nodes.keys r else none

/-- The method `Gateway.randomNode`: the pair `(node, err)`; `r` is the value of
`rand.Intn(len(g.nodes))`. -/
def Gateway.randomNode (g : Gateway) (r : Int) : NetAddress × GoError :=
  match g.randomNodeInLoop r with
  | some node => (node, none)
  | none => ("", errNoPeers)

/-! ## Miner (`modules/miner/info.go`) -/

/-- The fields of `Miner` that `info.go` reads; the thread counts are Go `int`s. -/
structure Miner where
  threads : Int
  desiredThreads : Int
  runningThreads : Int
  address : Hash
  deriving DecidableEq, Repr

/-- The struct `modules.MinerInfo`, declared outside `info.go`, with the fields
that `MinerInfo` sets. -/
structure modules.MinerInfo where
  State : String
  Mining : Bool
  Threads : Int
  RunningThreads : Int
  Address : Hash
  deriving DecidableEq, Repr

/-- The branch of `Miner.MinerInfo` that sets `info.State`. -/
def minerState (desiredThreads runningThreads : Int) : String :=
  if desiredThreads = 0 ∧ runningThreads = 0 then "Off"
  else if desiredThreads = 0 ∧ runningThreads > 0 then "Turning Off"
  else if desiredThreads = runningThreads then "On"
  else if desiredThreads > runningThreads then "Turning On"
  else if desiredThreads < runningThreads then "Decreasing number of threads."
  else "Miner is in an ERROR state!"

/-- The method `Miner.MinerInfo`. -/
def Miner.MinerInfo (m : Miner) : modules.MinerInfo :=
  { Threads := m.threads
    RunningThreads := m.runningThreads
    Address := m.address
    Mining := decide (m.runningThreads ≠ 0)
    State := minerState m.desiredThreads m.runningThreads }

/-! ## Host announcement (`modules/host/announce_test.go`) -/

/-- Modelled from the spec: `modules.HostAnnouncement`, the record
`HostAnnouncement{IPAddress}`. -/
structure HostAnnouncement where
  IPAddress : NetAddress
  deriving DecidableEq, Repr

/-- Modelled from the spec: the bytes of a `NetAddress`, an ASCII string: one
byte for each character. -/
def netAddressBytes (addr : NetAddress) : blockdb.Bytes := addr.toList.map Char.toNat

/-- Modelled from the spec: the `NetAddress` that a byte string holds. -/
def netAddressOfBytes (bs : blockdb.Bytes) : NetAddress := String.mk (bs.map Char.ofNat)

/-- Modelled from the spec: `encoding.DecUint64`, the number that 8 little-endian
bytes hold. -/
def DecUint64 (bs : blockdb.Bytes) : Nat :=
  (List.range 8).foldl (fun acc i => acc + bs.getD i 0 * 256 ^ i) 0

/-- Modelled from the spec: `encoding.Marshal` on a `HostAnnouncement`: a
structure is the concatenation of its fields, and a variable-length sequence is
prefixed with its unsigned 64-bit length. -/
def MarshalAnnouncement (ha : HostAnnouncement) : blockdb.Bytes :=
  blockdb.EncUint64 ((netAddressBytes ha.IPAddress).length % 2 ^ 64)
    ++ netAddressBytes ha.IPAddress

/-- Modelled from the spec: `encoding.Unmarshal` into a `HostAnnouncement`; it
fails with `MalformedEncoding` on truncation. -/
def UnmarshalAnnouncement (bs : blockdb.Bytes) : Except String HostAnnouncement :=
  if bs.length < 8 then .error "MalformedEncoding"
  else if (bs.drop 8).length < DecUint64 (bs.take 8) then .error "MalformedEncoding"
  else .ok ⟨netAddressOfBytes ((bs.drop 8).take (DecUint64 (bs.take 8)))⟩

/-- The call `strings.TrimPrefix(s, p)` of the Go library, on byte strings. -/
def TrimPrefix (s p : blockdb.Bytes) : blockdb.Bytes :=
  if p.isPrefixOf s then s.drop p.length else s

/-- Modelled from the spec: `types.Transaction`, reduced to its arbitrary-data
entries. -/
structure Transaction where
  ArbitraryData : List blockdb.Bytes
  deriving DecidableEq, Repr

/-- Modelled from the spec: the host of the announcement test, with its own
address and the transactions of its transaction pool. -/
structure Announcer where
  myAddr : NetAddress
  tpool : List Transaction
  deriving DecidableEq, Repr

/-- The errors of the wallet and of the transaction pool during one `Announce`
(`none` is `nil`). -/
structure AnnounceAnswers where
  register : GoError         -- h.wallet.RegisterTransaction
  addData : GoError          -- h.wallet.AddArbitraryData
  sign : GoError             -- h.wallet.SignTransaction
  accept : GoError           -- h.tpool.AcceptTransaction
  deriving DecidableEq, Repr

/-- Modelled from the spec: `Host.Announce`, declared outside the sources at
hand.  The host constructs a transaction with one arbitrary-data entry, the
bytes `PrefixHostAnnouncement || encode(HostAnnouncement{IPAddress})`, through
the wallet, and hands it to the transaction pool. -/
def Announce (PrefixHostAnnouncement : blockdb.Bytes) (w : AnnounceAnswers) (h : Announcer) :
    Announcer × GoError :=
  let announcement := MarshalAnnouncement ⟨h.myAddr⟩
  match w.register with
  | some err => (h, some err)
  | none =>
  match w.addData with
  | some err => (h, some err)
  | none =>
  match w.sign with
  | some err => (h, some err)
  | none =>
  match w.accept with
  | some err => (h, some err)
  | none => ({ h with tpool := h.tpool ++ [⟨[PrefixHostAnnouncement ++ announcement]⟩] }, none)

/-! ## Predicates and example states -/

/-- A consensus state with one siacoin output, under ID 5, and one siafund
output, under ID 6. -/
def exampleOutputs : State := ⟨[], [], [(5, ⟨7, 9⟩)], [(6, ⟨1, 2⟩)]⟩

/-- A block node whose diffs were generated. -/
def exampleNode1 : blockNode := ⟨⟨0, 0, 0⟩, 1, true, [⟨true, 4, ⟨7, 9⟩⟩]⟩

/-- A block node whose diffs were not generated. -/
def exampleNode2 : blockNode := ⟨⟨1, 0, 0⟩, 2, false, []⟩

/-- A consensus state with the two example nodes under the IDs 1 and 2. -/
def exampleTree : State := ⟨[(1, exampleNode1), (2, exampleNode2)], [1], [], []⟩

/-- A gateway that knows one address. -/
def exampleGateway1 : Gateway := ⟨[("10.0.0.1:9981", ())], []⟩

/-- A gateway that knows twelve addresses. -/
def exampleGateway12 : Gateway := ⟨(List.range 12).map (fun i => (toString i, ())), []⟩

/-- An obligation whose window starts at height 1. -/
def exampleObligation1 : contractObligation := ⟨11, "contract11", 4096, 1⟩

/-- A second obligation whose window starts at height 1. -/
def exampleObligation2 : contractObligation := ⟨12, "contract12", 4096, 1⟩

/-- An obligation whose window starts at height 2. -/
def exampleObligation3 : contractObligation := ⟨13, "contract13", 4096, 2⟩

/-- A host at height 0 that holds the three example obligations, each indexed
by its ID and by the height at which its window starts. -/
def exampleHost : Host :=
  { blockHeight := 0
    obligationsByID :=
      [(11, exampleObligation1), (12, exampleObligation2), (13, exampleObligation3)]
    obligationsByHeight :=
      [(1, [exampleObligation1, exampleObligation2]), (2, [exampleObligation3])]
    spaceRemaining := 0 }

/-- Two applied blocks. -/
def exampleApplied : List Block := [⟨0, 1, 100⟩, ⟨1, 2, 200⟩]

/-- Every call succeeds, for every obligation. -/
def worldAllOk : Nat → Answers := fun _ => Answers.allOk 4096

/-- The file of the first obligation visited cannot be opened; every other call
succeeds. -/
def worldOpenFailsFirst : Nat → Answers := fun k =>
  if k = 0 then { Answers.allOk 4096 with open_ := some "open contract11: no such file" }
  else Answers.allOk 4096

/-- The wallet fails to sign the proof of the second obligation visited; every
other call succeeds. -/
def worldSignFailsSecond : Nat → Answers := fun k =>
  if k = 1 then { Answers.allOk 4096 with sign := some "wallet is locked" }
  else Answers.allOk 4096

/-- The two indexes of a host hold the same obligations, and `obligationsByID`
keeps each under its own ID. -/
def IndexesAgree (h : Host) : Prop :=
  (∀ o ∈ h.obligationsByID.values, o ∈ h.obligationsByHeight.values.flatten) ∧
  (∀ o ∈ h.obligationsByHeight.values.flatten, o ∈ h.obligationsByID.values) ∧
  (∀ e ∈ h.obligationsByID, e.2.ID = e.1)

instance (h : Host) : Decidable (IndexesAgree h) := by
  unfold IndexesAgree; infer_instance

/-- Each obligation of a host is listed under one height only. -/
def ListedOnce (h : Host) : Prop :=
  ∀ e1 ∈ h.obligationsByHeight, ∀ e2 ∈ h.obligationsByHeight,
    ∀ o ∈ e1.2, o ∈ e2.2 → e1.1 = e2.1

instance (h : Host) : Decidable (ListedOnce h) := by
  unfold ListedOnce; infer_instance

/-- The heights that the block loop of `ReceiveConsensusSetUpdate` reaches in `n`
passes, from height `x` on. -/
def reachedHeights (x : BlockHeight) (n : Nat) : List BlockHeight :=
  (List.range n).map (fun j => (x + (j + 1)) % 2 ^ 64)

/-- A codec for blocks that are numbers: a block is encoded in 8 bytes, and
decoding fails on any other length. -/
def exampleCodec : blockdb.Codec Nat where
  Marshal := fun block => blockdb.EncUint64 block
  Unmarshal := fun value =>
    if value.length = 8 then
      .ok ((List.range 8).foldl (fun acc i => acc + value.getD i 0 * 256 ^ i) 0)
    else .error "could not decode block"

/-- A block database that holds the blocks 41 and 42 at the heights 0 and 1. -/
def exampleDB : blockdb.Bucket :=
  [(blockdb.EncUint64 0, blockdb.EncUint64 41), (blockdb.EncUint64 1, blockdb.EncUint64 42)]

/-- A sequence of calls that starts with `RemoveBlock` on the empty store. -/
def exampleOps : List (blockdb.Op Nat) :=
  [.RemoveBlock, .AddBlock 41, .AddBlock 42, .AddBlock 43, .RemoveBlock]

/-- A consensus state whose current path holds the two example nodes. -/
def exampleChain : State := ⟨[(1, exampleNode1), (2, exampleNode2)], [1, 2], [], []⟩

/-- The bytes of the string `HostAnnouncement`. -/
def examplePrefix : blockdb.Bytes := netAddressBytes "HostAnnouncement"

/-- A host with an address and an empty transaction pool. -/
def exampleAnnouncer : Announcer := ⟨"10.0.0.1:9982", []⟩

/-- Neither the wallet nor the transaction pool fails. -/
def announceAllOk : AnnounceAnswers := ⟨none, none, none, none⟩

/-- A host with an address whose transaction pool already holds one
transaction, with the arbitrary-data entry `[1, 2, 3]`. -/
def exampleBusyAnnouncer : Announcer := ⟨"10.0.0.1:9982", [⟨[[1, 2, 3]]⟩]⟩

/-! ## Lemmas on Go maps -/

namespace GoMap

variable {κ ν : Type} [DecidableEq κ]

theorem get?_eq_none_iff (m : GoMap κ ν) (k : κ) : m.get? k = none ↔ k ∉ m.keys := by
  induction m with
  | nil => simp [get?, keys]
  | cons e rest ih =>
    obtain ⟨k0, v⟩ := e
    by_cases h : k0 = k
    · simp [get?, keys, h]
    · have h2 : ¬ k = k0 := fun h3 => h h3.symm
      simpa [get?, keys, h, h2] using ih

theorem contains_iff (m : GoMap κ ν) (k : κ) : m.contains k = true ↔ k ∈ m.keys := by
  have h := get?_eq_none_iff m k
  unfold contains
  cases hg : m.get? k with
  | none => simpa [hg] using h
  | some v => simpa [hg] using h

theorem get?_set_self (m : GoMap κ ν) (k : κ) (v : ν) : (m.set k v).get? k = some v := by
  induction m with
  | nil => simp [set, get?]
  | cons e rest ih =>
    obtain ⟨k0, v0⟩ := e
    by_cases h : k0 = k
    · simp [set, get?, h]
    · simpa [set, get?, h] using ih

theorem get?_set_of_ne (m : GoMap κ ν) (k k2 : κ) (v : ν) (hne : k2 ≠ k) :
    (m.set k v).get? k2 = m.get? k2 := by
  have h3 : ¬ k = k2 := fun h4 => hne h4.symm
  induction m with
  | nil => simp [set, get?, h3]
  | cons e rest ih =>
    obtain ⟨k0, v0⟩ := e
    by_cases h : k0 = k
    · subst h
      simp [set, get?, h3]
    · by_cases h5 : k0 = k2
      · subst h5
        simp [set, get?, h]
      · simpa [set, get?, h, h5] using ih

theorem keys_set_of_not_mem (m : GoMap κ ν) (k : κ) (v : ν) (h : k ∉ m.keys) :
    (m.set k v).keys = m.keys ++ [k] := by
  induction m with
  | nil => simp [set, keys]
  | cons e rest ih =>
    obtain ⟨k0, v0⟩ := e
    simp only [keys, List.map_cons, List.mem_cons, not_or] at h
    have h1 : ¬ k0 = k := fun h2 => h.1 h2.symm
    have := ih h.2
    simp only [keys] at this
    simp [set, keys, h1, this]

theorem set_of_not_mem (m : GoMap κ ν) (k : κ) (v : ν) (h : k ∉ m.keys) :
    m.set k v = m ++ [(k, v)] := by
  induction m with
  | nil => simp [set]
  | cons e rest ih =>
    obtain ⟨k0, v0⟩ := e
    simp only [keys, List.map_cons, List.mem_cons, not_or] at h
    have h1 : ¬ k0 = k := fun h2 => h.1 h2.symm
    simp [set, h1, ih h.2]

theorem keys_set_of_mem (m : GoMap κ ν) (k : κ) (v : ν) (h : k ∈ m.keys) :
    (m.set k v).keys = m.keys := by
  induction m with
  | nil => simp [keys] at h
  | cons e rest ih =>
    obtain ⟨k0, v0⟩ := e
    by_cases h1 : k0 = k
    · simp [set, keys, h1]
    · simp only [keys, List.map_cons, List.mem_cons] at h
      have h2 : k ∈ keys rest := by
        rcases h with h | h
        · exact absurd h.symm h1
        · exact h
      have := ih h2
      simp only [keys] at this
      simp [set, keys, h1, this]

theorem keys_delete (m : GoMap κ ν) (k : κ) :
    (m.delete k).keys = m.keys.filter (fun a => decide (a ≠ k)) := by
  induction m with
  | nil => rfl
  | cons e rest ih =>
    obtain ⟨k0, v0⟩ := e
    simp only [keys] at ih
    by_cases h : k0 = k
    · simp [delete, keys, List.filter_cons, h, ih]
    · simp [delete, keys, List.filter_cons, h, ih]

theorem delete_of_not_mem (m : GoMap κ ν) (k : κ) (h : k ∉ m.keys) : m.delete k = m := by
  induction m with
  | nil => rfl
  | cons e rest ih =>
    obtain ⟨k0, v0⟩ := e
    simp only [keys, List.map_cons, List.mem_cons, not_or] at h
    have h1 : ¬ k0 = k := fun h2 => h.1 h2.symm
    simp [delete, h1, ih h.2]

theorem delete_append_self (m : GoMap κ ν) (k : κ) (v : ν) (h : k ∉ m.keys) :
    delete (m ++ [(k, v)]) k = m := by
  induction m with
  | nil => simp [delete]
  | cons e rest ih =>
    obtain ⟨k0, v0⟩ := e
    simp only [keys, List.map_cons, List.mem_cons, not_or] at h
    have h1 : ¬ k0 = k := fun h2 => h.1 h2.symm
    simp [delete, h1, ih h.2]

theorem get?_delete_self (m : GoMap κ ν) (k : κ) : (m.delete k).get? k = none := by
  rw [get?_eq_none_iff, keys_delete]
  simp

theorem get?_delete_of_ne (m : GoMap κ ν) (k k2 : κ) (hne : k2 ≠ k) :
    (m.delete k).get? k2 = m.get? k2 := by
  have h3 : ¬ k = k2 := fun h4 => hne h4.symm
  induction m with
  | nil => rfl
  | cons e rest ih =>
    obtain ⟨k0, v0⟩ := e
    by_cases h : k0 = k
    · subst h
      simpa [delete, get?, h3] using ih
    · by_cases h5 : k0 = k2
      · subst h5
        simp [delete, get?, h]
      · simpa [delete, get?, h, h5] using ih

theorem delete_eq_filter (m : GoMap κ ν) (k : κ) :
    m.delete k = m.filter (fun e => decide (e.1 ≠ k)) := by
  induction m with
  | nil => rfl
  | cons e rest ih =>
    obtain ⟨k0, v0⟩ := e
    by_cases h : k0 = k
    · simp [delete, List.filter_cons, h, ih]
    · simp [delete, List.filter_cons, h, ih]

omit [DecidableEq κ] in
theorem WF.filter {m : GoMap κ ν} (h : m.WF) (p : κ × ν → Bool) :
    GoMap.WF (List.filter p m) :=
  List.Nodup.sublist (List.Sublist.map Prod.fst (List.filter_sublist m)) h

theorem mem_of_get? {m : GoMap κ ν} {k : κ} {v : ν} (h : m.get? k = some v) : (k, v) ∈ m := by
  induction m with
  | nil => simp [get?] at h
  | cons e rest ih =>
    obtain ⟨k0, v0⟩ := e
    by_cases hk : k0 = k
    · simp only [get?, hk, if_true, Option.some.injEq] at h
      simp [hk, h]
    · simp only [get?, hk, if_false] at h
      exact List.mem_cons_of_mem _ (ih h)

theorem WF.get?_of_mem {m : GoMap κ ν} (hwf : m.WF) {k : κ} {v : ν} (h : (k, v) ∈ m) :
    m.get? k = some v := by
  induction m with
  | nil => simp at h
  | cons e rest ih =>
    obtain ⟨k0, v0⟩ := e
    simp only [WF, keys, List.map_cons, List.nodup_cons] at hwf
    rcases List.mem_cons.1 h with heq | hmem
    · simp only [Prod.mk.injEq] at heq
      simp [get?, heq.1, heq.2]
    · have hk : ¬ k0 = k := by
        intro hk
        exact hwf.1 (hk ▸ List.mem_map_of_mem Prod.fst hmem)
      simp only [get?, hk, if_false]
      exact ih hwf.2 hmem

end GoMap

/-! ## Consensus: sorted output sets and block diffs -/

theorem foldl_append_singleton {α : Type} (l init : List α) :
    l.foldl (fun acc x => acc ++ [x]) init = init ++ l := by
  induction l generalizing init with
  | nil => simp
  | cons a rest ih => simp [ih]

/-- The slice that `sortedUscoSet` returns has twice as many elements as the map
has entries: the ID slice starts with `len(map)` zero hashes and the IDs are
appended to it. -/
theorem sortedUscoSet_length (s : State) :
    s.sortedUscoSet.length = 2 * s.siacoinOutputs.len := by
  simp [State.sortedUscoSet, sortHashSlice, foldl_append_singleton, GoMap.keys, GoMap.len]
  omega

theorem sortedUsfoLoop_length (s : State) (ids : List Hash) :
    ∃ outs, sortedUsfoLoop false s ids = some outs ∧ outs.length = ids.length := by
  induction ids with
  | nil => exact ⟨[], rfl, rfl⟩
  | cons id rest ih =>
    obtain ⟨outs, h1, h2⟩ := ih
    exact ⟨s.siafundOutputs.getD id SiafundOutput.zero :: outs,
      by simp [sortedUsfoLoop, h1], by simp [h2]⟩

/-- Without `build.DEBUG`, the slice that `sortedUsfoSet` returns has twice as
many elements as the map has entries. -/
theorem sortedUsfoSet_length (s : State) :
    ∃ outs, s.sortedUsfoSet false = some outs ∧ outs.length = 2 * s.siafundOutputs.len := by
  obtain ⟨outs, h1, h2⟩ := sortedUsfoLoop_length s
    (sortHashSlice (s.siafundOutputs.keys.foldl (fun acc outputID => acc ++ [outputID])
      (List.replicate s.siafundOutputs.len 0)))
  refine ⟨outs, h1, ?_⟩
  rw [h2]
  simp [sortHashSlice, foldl_append_singleton, GoMap.keys, GoMap.len]
  omega

/-- C1 (the code departs from the claim): a state with one siacoin output, under
ID 5, and one siafund output, under ID 6.  `sortedUscoSet` returns two elements,
the zero output first; `sortedUsfoSet` returns two elements without
`build.DEBUG` and panics in its sanity check with it.  The claim has one element
each. -/
theorem sortedOutputSets_at_single_output :
    exampleOutputs.siacoinOutputs.len = 1 ∧
    exampleOutputs.sortedUscoSet = [⟨0, 0⟩, ⟨7, 9⟩] ∧
    exampleOutputs.siafundOutputs.len = 1 ∧
    exampleOutputs.sortedUsfoSet false = some [⟨0, 0⟩, ⟨1, 2⟩] ∧
    exampleOutputs.sortedUsfoSet true = none := by
  decide

/-- C10: `BlockOutputDiffs(id)` returns an error and no diffs when `id` is not
in `blockMap` or the node's `diffsGenerated` is false; otherwise it returns
exactly the node's `siacoinOutputDiffs` and a nil error.  So diffs come back
only from a node whose diffs were generated. -/
theorem BlockOutputDiffs_spec (s : State) (id : BlockID) :
    (s.blockMap.get? id = none →
      (s.BlockOutputDiffs id).1 = [] ∧ (s.BlockOutputDiffs id).2 ≠ none) ∧
    (∀ node, s.blockMap.get? id = some node → node.diffsGenerated = false →
      (s.BlockOutputDiffs id).1 = [] ∧ (s.BlockOutputDiffs id).2 ≠ none) ∧
    (∀ node, s.blockMap.get? id = some node → node.diffsGenerated = true →
      s.BlockOutputDiffs id = (node.siacoinOutputDiffs, none)) ∧
    ((s.BlockOutputDiffs id).2 = none →
      ∃ node, s.blockMap.get? id = some node ∧ node.diffsGenerated = true ∧
        (s.BlockOutputDiffs id).1 = node.siacoinOutputDiffs) := by
  unfold State.BlockOutputDiffs
  cases hg : s.blockMap.get? id with
  | none => simp
  | some node => cases hd : node.diffsGenerated <;> simp [hd]

/-- C10, at a state with a node 1 whose diffs were generated and a node 2 whose
diffs were not. -/
theorem BlockOutputDiffs_spec_witness :
    exampleTree.BlockOutputDiffs 1 = ([⟨true, 4, ⟨7, 9⟩⟩], none) ∧
    (exampleTree.BlockOutputDiffs 2).1 = [] ∧
    (exampleTree.BlockOutputDiffs 3).1 = [] :=
  ⟨(BlockOutputDiffs_spec exampleTree 1).2.2.1 exampleNode1 rfl rfl,
   ((BlockOutputDiffs_spec exampleTree 2).2.1 exampleNode2 rfl rfl).1,
   ((BlockOutputDiffs_spec exampleTree 3).1 rfl).1⟩

/-! ## Gateway: node relay and node sharing -/

theorem shareNodesLoop_eq (rest nodes : List NetAddress) (h : nodes.length ≤ maxSharedNodes) :
    shareNodesLoop rest nodes = nodes ++ rest.take (maxSharedNodes - nodes.length) := by
  induction rest generalizing nodes with
  | nil => simp [shareNodesLoop]
  | cons node rest ih =>
    by_cases hlen : nodes.length = maxSharedNodes
    · simp [shareNodesLoop, hlen]
    · have h2 : (nodes ++ [node]).length ≤ maxSharedNodes := by
        simp only [List.length_append, List.length_singleton]; omega
      have h3 : maxSharedNodes - nodes.length = (maxSharedNodes - (nodes.length + 1)) + 1 := by
        omega
      rw [shareNodesLoop, if_neg hlen, ih _ h2, h3]
      simp

/-- C2: for an address that `relayNode` read successfully, a broadcast of
`RelayNode` with the address is started exactly when the address was not in the
node set; a known address leaves the gateway as it was and starts nothing; a new
address makes the node set the old set plus the address. -/
theorem relayNode_spec (g : Gateway) (addr : NetAddress) :
    ((g.relayNode (.ok addr)).2.1 = [⟨"RelayNode", addr⟩] ↔ addr ∉ g.nodes.keys) ∧
    (addr ∈ g.nodes.keys →
      (g.relayNode (.ok addr)).1 = g ∧ (g.relayNode (.ok addr)).2.1 = []) ∧
    (addr ∉ g.nodes.keys →
      (∀ a, a ∈ (g.relayNode (.ok addr)).1.nodes.keys ↔ a ∈ g.nodes.keys ∨ a = addr) ∧
      (g.relayNode (.ok addr)).1.nodes.len = g.nodes.len + 1) ∧
    (g.relayNode (.ok addr)).2.2 = none := by
  by_cases h : addr ∈ g.nodes.keys
  · have hc : g.nodes.contains addr = true := (GoMap.contains_iff _ _).2 h
    simp [Gateway.relayNode, Gateway.addNode, hc, h]
  · have hc : ¬ g.nodes.contains addr = true := fun hc => h ((GoMap.contains_iff _ _).1 hc)
    have hk := GoMap.keys_set_of_not_mem g.nodes addr () h
    have hs := GoMap.set_of_not_mem g.nodes addr () h
    simp [Gateway.relayNode, Gateway.addNode, hc, h, hk]
    simp [hs, GoMap.len]

/-- C2, at a gateway that knows one address: relaying it again, and relaying a
new one. -/
theorem relayNode_spec_witness :
    (exampleGateway1.relayNode (.ok "10.0.0.1:9981")).2.1 = [] ∧
    (exampleGateway1.relayNode (.ok "10.0.0.2:9981")).2.1
      = [⟨"RelayNode", "10.0.0.2:9981"⟩] :=
  ⟨((relayNode_spec exampleGateway1 "10.0.0.1:9981").2.1 (by decide)).2,
   (relayNode_spec exampleGateway1 "10.0.0.2:9981").1.2 (by decide)⟩

/-- C3: the list that `shareNodes` writes has at most 10 addresses, has no
address twice, holds only members of the node set, and its length is
`min(10, |nodes|)`; the gateway is left as it was. -/
theorem shareNodes_spec (g : Gateway) (writeErr : GoError) (hwf : g.nodes.WF) :
    (g.shareNodes writeErr).2.1.length ≤ 10 ∧
    (g.shareNodes writeErr).2.1.Nodup ∧
    (∀ a ∈ (g.shareNodes writeErr).2.1, a ∈ g.nodes.keys) ∧
    (g.shareNodes writeErr).2.1.length = min 10 g.nodes.len ∧
    (g.shareNodes writeErr).1 = g := by
  have heq : (g.shareNodes writeErr).2.1 = g.nodes.keys.take 10 := by
    simp [Gateway.shareNodes, shareNodesLoop_eq, maxSharedNodes]
  rw [heq]
  refine ⟨?_, ?_, ?_, ?_, rfl⟩
  · simp [List.length_take]
  · exact List.Nodup.sublist (List.take_sublist _ _) hwf
  · intro a ha
    exact List.mem_of_mem_take ha
  · simp [List.length_take, GoMap.keys, GoMap.len]

/-- C3, at a gateway that knows twelve addresses. -/
theorem shareNodes_spec_witness :
    exampleGateway12.nodes.WF ∧ (exampleGateway12.shareNodes none).2.1.length = min 10 12 :=
  ⟨by decide, (shareNodes_spec exampleGateway12 none (by decide)).2.2.2.1⟩

/-! ## Host: consensus updates -/

/-- C4 (the code departs from the claim): the example host receives two applied
blocks and the file of obligation 11, indexed at height 1, cannot be opened.
`ReceiveConsensusSetUpdate` prints the error and returns at once: obligation 11
is still in `obligationsByID` and still listed under height 1.  The claim has it
dropped. -/
theorem failed_obligation_is_kept (DEBUG : Bool) :
    ∃ r, exampleHost.ReceiveConsensusSetUpdate DEBUG worldOpenFailsFirst 0 [] exampleApplied
        = .returns r ∧
      r.printed = ["open contract11: no such file"] ∧
      r.host.obligationsByID.get? 11 = some exampleObligation1 ∧
      r.host.obligationsByHeight.get? 1 = some [exampleObligation1, exampleObligation2] := by
  cases DEBUG <;> exact ⟨_, rfl, by decide⟩

/-- C5 (the code departs from the claim): the example host, at height 0, receives
no reverted and two applied blocks, and the file of the first obligation cannot
be opened.  `ReceiveConsensusSetUpdate` returns inside the first pass of the
block loop: `blockHeight` is 1 afterwards, and `updateSubscribers` is not
called.  The claim has `0 - 0 + 2 = 2`. -/
theorem blockHeight_stops_at_failed_proof (DEBUG : Bool) :
    ∃ r, exampleHost.ReceiveConsensusSetUpdate DEBUG worldOpenFailsFirst 0 [] exampleApplied
        = .returns r ∧
      r.host.blockHeight = 1 ∧ r.subscribersUpdated = false ∧
      wrap64 ((exampleHost.blockHeight : Int) - ([] : List Block).length
        + exampleApplied.length) = 2 := by
  cases DEBUG <;> exact ⟨_, rfl, by decide⟩

/-- C6 (the code departs from the claim): the two indexes of the example host
agree.  It receives one applied block; the proof of obligation 11 goes through
and the wallet fails on obligation 12, both indexed at height 1.
`ReceiveConsensusSetUpdate` has deleted obligation 11 from `obligationsByID` and
returns before it deletes height 1 from `obligationsByHeight`: the indexes no
longer agree. -/
theorem indexes_disagree_after_failed_proof :
    IndexesAgree exampleHost ∧
    ∃ r, exampleHost.ReceiveConsensusSetUpdate false worldSignFailsSecond 0 [] [⟨0, 1, 100⟩]
        = .returns r ∧
      r.host.obligationsByID.get? 11 = none ∧
      r.host.obligationsByHeight.get? 1 = some [exampleObligation1, exampleObligation2] ∧
      ¬ IndexesAgree r.host :=
  ⟨by decide, _, rfl, by decide⟩

theorem succ_mod_add (x n : Nat) :
    ((x + 1) % 2 ^ 64 + n) % 2 ^ 64 = (x + (n + 1)) % 2 ^ 64 := by
  omega

theorem wrap64_lt (x : Int) : wrap64 x < 2 ^ 64 := by
  unfold wrap64; omega

theorem wrap64_sub_add (x r a : Nat) :
    (wrap64 ((x : Int) - (r : Int)) + a) % 2 ^ 64 = wrap64 ((x : Int) - (r : Int) + (a : Int)) := by
  unfold wrap64; omega

theorem obligationLoop_blockHeight (DEBUG : Bool) (world : Nat → Answers) (csHeight : BlockHeight)
    (obs : List contractObligation) :
    ∀ (h : Host) (printed : List String) (attempt : Nat) (e : LoopEnd),
      obligationLoop DEBUG world csHeight obs h printed attempt = .returns e →
      match e with
      | .finished h1 _ _ => h1.blockHeight = h.blockHeight ∧
          h1.obligationsByHeight = h.obligationsByHeight
      | .returned h1 _ => h1.blockHeight = h.blockHeight ∧
          h1.obligationsByHeight = h.obligationsByHeight := by
  induction obs with
  | nil =>
    intro h printed attempt e he
    simp only [obligationLoop, Ending.returns.injEq] at he
    subst he
    exact ⟨rfl, rfl⟩
  | cons ob rest ih =>
    intro h printed attempt e he
    rw [obligationLoop] at he
    cases hc : createStorageProof DEBUG (world attempt) ob csHeight with
    | panics msg => simp [hc] at he
    | returns err =>
      cases err with
      | some msg =>
        simp only [hc, Ending.returns.injEq] at he
        subst he
        exact ⟨rfl, rfl⟩
      | none =>
        cases hs : (world attempt).stat with
        | some msg =>
          simp only [hc, hs, Ending.returns.injEq] at he
          subst he
          exact ⟨rfl, rfl⟩
        | none =>
          simp only [hc, hs] at he
          have := ih _ _ _ e he
          cases e <;> simpa [Host.deallocate] using this

theorem appliedLoop_finished_blockHeight (DEBUG : Bool) (world : Nat → Answers)
    (csHeight : BlockHeight) (blocks : List Block) :
    ∀ (h h1 : Host) (printed printed1 : List String) (attempt attempt1 : Nat),
      h.blockHeight < 2 ^ 64 →
      appliedLoop DEBUG world csHeight blocks h printed attempt
        = .returns (.finished h1 printed1 attempt1) →
      h1.blockHeight = (h.blockHeight + blocks.length) % 2 ^ 64 := by
  induction blocks with
  | nil =>
    intro h h1 printed printed1 attempt attempt1 hlt he
    simp only [appliedLoop, Ending.returns.injEq, LoopEnd.finished.injEq] at he
    obtain ⟨he1, -, -⟩ := he
    subst he1
    simp only [List.length_nil, Nat.add_zero]
    exact (Nat.mod_eq_of_lt hlt).symm
  | cons blk rest ih =>
    intro h h1 printed printed1 attempt attempt1 hlt he
    rw [appliedLoop] at he
    simp only at he
    split at he
    · simp at he
    · simp at he
    · next h2 p2 a2 hloop =>
      have hb := obligationLoop_blockHeight DEBUG world csHeight _ _ _ _ _ hloop
      simp only at hb
      have hb1 : h2.blockHeight = (h.blockHeight + 1) % 2 ^ 64 := hb.1
      have hlt2 : h2.blockHeight < 2 ^ 64 := by
        rw [hb1]; exact Nat.mod_lt _ (by norm_num)
      have h3 : h1.blockHeight = (h2.blockHeight + rest.length) % 2 ^ 64 :=
        ih { h2 with obligationsByHeight := h2.obligationsByHeight.delete h2.blockHeight }
          _ _ _ _ _ hlt2 he
      rw [h3, hb1, List.length_cons]
      exact succ_mod_add h.blockHeight rest.length

/-- When `ReceiveConsensusSetUpdate` runs to its last statement (no proof fails),
`blockHeight` is its previous value minus `len(reverted)` plus `len(applied)` in
unsigned 64-bit arithmetic. -/
theorem update_finished_blockHeight (DEBUG : Bool) (world : Nat → Answers)
    (csHeight : BlockHeight) (h : Host) (reverted applied : List Block) (r : UpdateResult)
    (hr : h.ReceiveConsensusSetUpdate DEBUG world csHeight reverted applied = .returns r)
    (hfin : r.subscribersUpdated = true) :
    r.host.blockHeight
      = wrap64 ((h.blockHeight : Int) - (reverted.length : Int) + (applied.length : Int)) := by
  unfold Host.ReceiveConsensusSetUpdate at hr
  simp only at hr
  split at hr
  · simp at hr
  · simp only [Ending.returns.injEq] at hr
    subst hr
    simp at hfin
  · next h2 p2 a2 hloop =>
    simp only [Ending.returns.injEq] at hr
    subst hr
    have hw : wrap64 ((h.blockHeight : Int) - (reverted.length : Int)) < 2 ^ 64 :=
      wrap64_lt _
    have h3 := appliedLoop_finished_blockHeight DEBUG world csHeight applied _ _ _ _ _ _
      hw hloop
    show h2.blockHeight = _
    rw [h3]
    exact wrap64_sub_add h.blockHeight reverted.length applied.length

theorem createStorageProof_of_succeeds (DEBUG : Bool) (w : Answers) (o : contractObligation)
    (c : BlockHeight) (hw : w.succeeds = true) :
    createStorageProof DEBUG w o c = .returns none ∧ w.stat = none := by
  simp only [Answers.succeeds, Bool.and_eq_true, Option.isNone_iff_eq_none] at hw
  obtain ⟨⟨⟨⟨⟨⟨⟨h1, h2⟩, h3⟩, h4⟩, h5⟩, h6⟩, h7⟩, h8⟩ := hw
  simp [createStorageProof, h1, h2, h3, h4, h5, h6, h7, h8]

theorem obligationLoop_of_succeeds (DEBUG : Bool) (world : Nat → Answers) (csHeight : BlockHeight)
    (hw : ∀ k, (world k).succeeds = true) (obs : List contractObligation) :
    ∀ (h : Host) (printed : List String) (attempt : Nat),
      ∃ h1 attempt1, obligationLoop DEBUG world csHeight obs h printed attempt
        = .returns (.finished h1 printed attempt1) := by
  induction obs with
  | nil => intro h printed attempt; exact ⟨h, attempt, rfl⟩
  | cons ob rest ih =>
    intro h printed attempt
    obtain ⟨hc, hs⟩ := createStorageProof_of_succeeds DEBUG (world attempt) ob csHeight (hw attempt)
    rw [obligationLoop]
    simp only [hc, hs]
    exact ih _ _ _

theorem appliedLoop_of_succeeds (DEBUG : Bool) (world : Nat → Answers) (csHeight : BlockHeight)
    (hw : ∀ k, (world k).succeeds = true) (blocks : List Block) :
    ∀ (h : Host) (printed : List String) (attempt : Nat),
      ∃ h1 attempt1, appliedLoop DEBUG world csHeight blocks h printed attempt
        = .returns (.finished h1 printed attempt1) := by
  induction blocks with
  | nil => intro h printed attempt; exact ⟨h, attempt, rfl⟩
  | cons blk rest ih =>
    intro h printed attempt
    rw [appliedLoop]
    simp only
    obtain ⟨h2, a2, hloop⟩ := obligationLoop_of_succeeds DEBUG world csHeight hw
      (h.obligationsByHeight.getD ((h.blockHeight + 1) % 2 ^ 64) [])
      { h with blockHeight := (h.blockHeight + 1) % 2 ^ 64 } printed attempt
    rw [hloop]
    exact ih _ _ _

/-- When no call fails, `ReceiveConsensusSetUpdate` runs to its last statement:
it prints nothing and calls `updateSubscribers`. -/
theorem update_finishes_of_succeeds (DEBUG : Bool) (world : Nat → Answers)
    (csHeight : BlockHeight) (hw : ∀ k, (world k).succeeds = true) (h : Host)
    (reverted applied : List Block) :
    ∃ host, h.ReceiveConsensusSetUpdate DEBUG world csHeight reverted applied
      = .returns ⟨host, [], true⟩ := by
  obtain ⟨h1, a1, hloop⟩ := appliedLoop_of_succeeds DEBUG world csHeight hw applied
    { h with blockHeight := wrap64 ((h.blockHeight : Int) - (reverted.length : Int)) } [] 0
  refine ⟨h1, ?_⟩
  unfold Host.ReceiveConsensusSetUpdate
  simp only [hloop]

theorem obligationLoop_finished_byID (DEBUG : Bool) (world : Nat → Answers)
    (csHeight : BlockHeight) (obs : List contractObligation) :
    ∀ (h h1 : Host) (printed printed1 : List String) (attempt attempt1 : Nat),
      obligationLoop DEBUG world csHeight obs h printed attempt
        = .returns (.finished h1 printed1 attempt1) →
      (∀ o ∈ obs, h1.obligationsByID.get? o.ID = none) ∧
      (∀ id, h1.obligationsByID.get? id = none ∨
        h1.obligationsByID.get? id = h.obligationsByID.get? id) := by
  induction obs with
  | nil =>
    intro h h1 printed printed1 attempt attempt1 he
    simp only [obligationLoop, Ending.returns.injEq, LoopEnd.finished.injEq] at he
    obtain ⟨he1, -, -⟩ := he
    subst he1
    exact ⟨by simp, fun id => Or.inr rfl⟩
  | cons ob rest ih =>
    intro h h1 printed printed1 attempt attempt1 he
    rw [obligationLoop] at he
    split at he
    · simp at he
    · simp at he
    · split at he
      · simp at he
      · have hrec := ih _ _ _ _ _ _ he
        simp only [Host.deallocate] at hrec
        obtain ⟨hall, hshrink⟩ := hrec
        have hself : h1.obligationsByID.get? ob.ID = none := by
          rcases hshrink ob.ID with h0 | h0
          · exact h0
          · rw [h0]; exact GoMap.get?_delete_self _ _
        refine ⟨?_, ?_⟩
        · intro o ho
          rcases List.mem_cons.1 ho with rfl | ho
          · exact hself
          · exact hall o ho
        · intro id
          by_cases hid : id = ob.ID
          · subst hid; exact Or.inl hself
          · rcases hshrink id with h0 | h0
            · exact Or.inl h0
            · right; rw [h0]; exact GoMap.get?_delete_of_ne _ _ _ hid

theorem appliedLoop_finished_drops (DEBUG : Bool) (world : Nat → Answers)
    (csHeight : BlockHeight) (blocks : List Block) :
    ∀ (h h1 : Host) (printed printed1 : List String) (attempt attempt1 : Nat),
      appliedLoop DEBUG world csHeight blocks h printed attempt
        = .returns (.finished h1 printed1 attempt1) →
      (∀ id, h1.obligationsByID.get? id = none ∨
        h1.obligationsByID.get? id = h.obligationsByID.get? id) ∧
      (∀ ht, h1.obligationsByHeight.get? ht = none ∨
        h1.obligationsByHeight.get? ht = h.obligationsByHeight.get? ht) ∧
      (∀ j, j < blocks.length →
        h1.obligationsByHeight.get? ((h.blockHeight + (j + 1)) % 2 ^ 64) = none ∧
        ∀ o ∈ h.obligationsByHeight.getD ((h.blockHeight + (j + 1)) % 2 ^ 64) [],
          h1.obligationsByID.get? o.ID = none) := by
  induction blocks with
  | nil =>
    intro h h1 printed printed1 attempt attempt1 he
    simp only [appliedLoop, Ending.returns.injEq, LoopEnd.finished.injEq] at he
    obtain ⟨he1, -, -⟩ := he
    subst he1
    exact ⟨fun _ => Or.inr rfl, fun _ => Or.inr rfl, by simp⟩
  | cons blk rest ih =>
    intro h h1 printed printed1 attempt attempt1 he
    rw [appliedLoop] at he
    simp only at he
    split at he
    · simp at he
    · simp at he
    · next h2 p2 a2 hloop =>
      have hb := obligationLoop_blockHeight DEBUG world csHeight _ _ _ _ _ hloop
      simp only at hb
      obtain ⟨hb1, hb2⟩ := hb
      have hb1 : h2.blockHeight = (h.blockHeight + 1) % 2 ^ 64 := hb1
      have hb2 : h2.obligationsByHeight = h.obligationsByHeight := hb2
      obtain ⟨hall, hshrink⟩ := obligationLoop_finished_byID DEBUG world csHeight _ _ _ _ _ _ _ hloop
      have hshrink : ∀ id, h2.obligationsByID.get? id = none ∨
          h2.obligationsByID.get? id = h.obligationsByID.get? id := hshrink
      have hall : ∀ o ∈ h.obligationsByHeight.getD ((h.blockHeight + 1) % 2 ^ 64) [],
          h2.obligationsByID.get? o.ID = none := hall
      obtain ⟨i1, i2, i3⟩ :=
        ih { h2 with obligationsByHeight := h2.obligationsByHeight.delete h2.blockHeight }
          _ _ _ _ _ he
      have i1 : ∀ id, h1.obligationsByID.get? id = none ∨
          h1.obligationsByID.get? id = h2.obligationsByID.get? id := i1
      have i2 : ∀ ht, h1.obligationsByHeight.get? ht = none ∨
          h1.obligationsByHeight.get? ht
            = (h2.obligationsByHeight.delete h2.blockHeight).get? ht := i2
      have i3 : ∀ j, j < rest.length →
          h1.obligationsByHeight.get? ((h2.blockHeight + (j + 1)) % 2 ^ 64) = none ∧
          ∀ o ∈ GoMap.getD (h2.obligationsByHeight.delete h2.blockHeight)
              ((h2.blockHeight + (j + 1)) % 2 ^ 64) [],
            h1.obligationsByID.get? o.ID = none := i3
      have hfirst : h1.obligationsByHeight.get? ((h.blockHeight + 1) % 2 ^ 64) = none ∧
          ∀ o ∈ h.obligationsByHeight.getD ((h.blockHeight + 1) % 2 ^ 64) [],
            h1.obligationsByID.get? o.ID = none := by
        constructor
        · rcases i2 ((h.blockHeight + 1) % 2 ^ 64) with h0 | h0
          · exact h0
          · rw [h0, hb1]; exact GoMap.get?_delete_self _ _
        · intro o ho
          rcases i1 o.ID with h0 | h0
          · exact h0
          · rw [h0]; exact hall o ho
      refine ⟨?_, ?_, ?_⟩
      · intro id
        rcases i1 id with h0 | h0
        · exact Or.inl h0
        · rw [h0]; exact hshrink id
      · intro ht
        rcases i2 ht with h0 | h0
        · exact Or.inl h0
        · by_cases hht : ht = h2.blockHeight
          · left; rw [h0, hht]; exact GoMap.get?_delete_self _ _
          · right; rw [h0, GoMap.get?_delete_of_ne _ _ _ hht, hb2]
      · intro j hj
        cases j with
        | zero => simpa using hfirst
        | succ j =>
          simp only [List.length_cons, Nat.add_lt_add_iff_right] at hj
          have hidx : (h.blockHeight + (j + 1 + 1)) % 2 ^ 64
              = (h2.blockHeight + (j + 1)) % 2 ^ 64 := by
            rw [hb1]; exact (succ_mod_add h.blockHeight (j + 1)).symm
          rw [hidx]
          obtain ⟨k1, k2⟩ := i3 j hj
          refine ⟨k1, ?_⟩
          intro o ho
          by_cases hht : (h2.blockHeight + (j + 1)) % 2 ^ 64 = h2.blockHeight
          · rw [hht, hb1] at ho
            exact hfirst.2 o ho
          · apply k2 o
            simpa only [GoMap.getD, GoMap.get?_delete_of_ne _ _ _ hht, hb2] using ho

/-- When `ReceiveConsensusSetUpdate` runs to its last statement (no proof fails),
every height reached while processing the applied blocks is gone from
`obligationsByHeight`, and every obligation that was listed under such a height
is gone from `obligationsByID`. -/
theorem update_finished_drops (DEBUG : Bool) (world : Nat → Answers)
    (csHeight : BlockHeight) (h : Host) (reverted applied : List Block) (r : UpdateResult)
    (hr : h.ReceiveConsensusSetUpdate DEBUG world csHeight reverted applied = .returns r)
    (hfin : r.subscribersUpdated = true) (j : Nat) (hj : j < applied.length) :
    r.host.obligationsByHeight.get?
        ((wrap64 ((h.blockHeight : Int) - (reverted.length : Int)) + (j + 1)) % 2 ^ 64) = none ∧
    ∀ o ∈ h.obligationsByHeight.getD
        ((wrap64 ((h.blockHeight : Int) - (reverted.length : Int)) + (j + 1)) % 2 ^ 64) [],
      r.host.obligationsByID.get? o.ID = none := by
  unfold Host.ReceiveConsensusSetUpdate at hr
  simp only at hr
  split at hr
  · simp at hr
  · simp only [Ending.returns.injEq] at hr
    subst hr
    simp at hfin
  · next h2 p2 a2 hloop =>
    simp only [Ending.returns.injEq] at hr
    subst hr
    exact (appliedLoop_finished_drops DEBUG world csHeight applied _ _ _ _ _ _ hloop).2.2 j hj

theorem obligationLoop_finished_filter (DEBUG : Bool) (world : Nat → Answers)
    (csHeight : BlockHeight) (obs : List contractObligation) :
    ∀ (h h1 : Host) (printed printed1 : List String) (attempt attempt1 : Nat),
      obligationLoop DEBUG world csHeight obs h printed attempt
        = .returns (.finished h1 printed1 attempt1) →
      h1.obligationsByID
        = h.obligationsByID.filter (fun e => decide (e.1 ∉ obs.map (fun o => o.ID))) := by
  induction obs with
  | nil =>
    intro h h1 printed printed1 attempt attempt1 he
    simp only [obligationLoop, Ending.returns.injEq, LoopEnd.finished.injEq] at he
    obtain ⟨he1, -, -⟩ := he
    subst he1
    simp
  | cons ob rest ih =>
    intro h h1 printed printed1 attempt attempt1 he
    rw [obligationLoop] at he
    split at he
    · simp at he
    · simp at he
    · split at he
      · simp at he
      · have hrec := ih _ _ _ _ _ _ he
        simp only [Host.deallocate] at hrec
        rw [hrec, GoMap.delete_eq_filter, List.filter_filter]
        apply List.filter_congr
        intro e _
        by_cases h1 : e.1 = ob.ID <;> simp [h1]

theorem appliedLoop_finished_filter (DEBUG : Bool) (world : Nat → Answers)
    (csHeight : BlockHeight) (blocks : List Block) :
    ∀ (h h1 : Host) (printed printed1 : List String) (attempt attempt1 : Nat),
      h.obligationsByHeight.WF →
      appliedLoop DEBUG world csHeight blocks h printed attempt
        = .returns (.finished h1 printed1 attempt1) →
      ∃ removed : List contractObligation,
        h1.obligationsByID
          = h.obligationsByID.filter (fun e => decide (e.1 ∉ removed.map (fun o => o.ID))) ∧
        h1.obligationsByHeight
          = h.obligationsByHeight.filter
              (fun e => decide (e.1 ∉ reachedHeights h.blockHeight blocks.length)) ∧
        (∀ o ∈ removed, ∃ e ∈ h.obligationsByHeight,
          e.1 ∈ reachedHeights h.blockHeight blocks.length ∧ o ∈ e.2) ∧
        (∀ e ∈ h.obligationsByHeight, e.1 ∈ reachedHeights h.blockHeight blocks.length →
          ∀ o ∈ e.2, o ∈ removed) := by
  induction blocks with
  | nil =>
    intro h h1 printed printed1 attempt attempt1 _ he
    simp only [appliedLoop, Ending.returns.injEq, LoopEnd.finished.injEq] at he
    obtain ⟨he1, -, -⟩ := he
    subst he1
    exact ⟨[], by simp, by simp [reachedHeights], by simp, by simp [reachedHeights]⟩
  | cons blk rest ih =>
    intro h h1 printed printed1 attempt attempt1 hwf he
    rw [appliedLoop] at he
    simp only at he
    split at he
    · simp at he
    · simp at he
    · next h2 p2 a2 hloop =>
      have hb := obligationLoop_blockHeight DEBUG world csHeight _ _ _ _ _ hloop
      simp only at hb
      obtain ⟨hb1, hb2⟩ := hb
      have hb1 : h2.blockHeight = (h.blockHeight + 1) % 2 ^ 64 := hb1
      have hb2 : h2.obligationsByHeight = h.obligationsByHeight := hb2
      have hf : h2.obligationsByID = h.obligationsByID.filter (fun e => decide (e.1 ∉
          (h.obligationsByHeight.getD ((h.blockHeight + 1) % 2 ^ 64) []).map (fun o => o.ID))) :=
        obligationLoop_finished_filter DEBUG world csHeight _
          { h with blockHeight := (h.blockHeight + 1) % 2 ^ 64 } _ _ _ _ _ hloop
      have hwf3 : GoMap.WF (h2.obligationsByHeight.delete h2.blockHeight) := by
        rw [GoMap.delete_eq_filter, hb2]; exact hwf.filter _
      obtain ⟨removed, r1, r2, r3, r4⟩ :=
        ih { h2 with obligationsByHeight := h2.obligationsByHeight.delete h2.blockHeight }
          _ _ _ _ _ hwf3 he
      have r1 : h1.obligationsByID = h2.obligationsByID.filter
          (fun e => decide (e.1 ∉ removed.map (fun o => o.ID))) := r1
      have r2 : h1.obligationsByHeight = (h2.obligationsByHeight.delete h2.blockHeight).filter
          (fun e => decide (e.1 ∉ reachedHeights h2.blockHeight rest.length)) := r2
      have r3 : ∀ o ∈ removed, ∃ e ∈ h2.obligationsByHeight.delete h2.blockHeight,
          e.1 ∈ reachedHeights h2.blockHeight rest.length ∧ o ∈ e.2 := r3
      have r4 : ∀ e ∈ h2.obligationsByHeight.delete h2.blockHeight,
          e.1 ∈ reachedHeights h2.blockHeight rest.length → ∀ o ∈ e.2, o ∈ removed := r4
      have hreach : ∀ ht, ht ∈ reachedHeights h.blockHeight (rest.length + 1) ↔
          ht = h2.blockHeight ∨ ht ∈ reachedHeights h2.blockHeight rest.length := by
        intro ht
        simp only [reachedHeights, List.mem_map, List.mem_range, hb1]
        constructor
        · rintro ⟨j, hj, rfl⟩
          cases j with
          | zero => exact Or.inl rfl
          | succ j =>
            exact Or.inr ⟨j, by omega, succ_mod_add h.blockHeight (j + 1)⟩
        · rintro (rfl | ⟨j, hj, rfl⟩)
          · exact ⟨0, by omega, rfl⟩
          · exact ⟨j + 1, by omega, (succ_mod_add h.blockHeight (j + 1)).symm⟩
      rw [GoMap.delete_eq_filter, hb2] at r2 r3 r4
      refine ⟨h.obligationsByHeight.getD ((h.blockHeight + 1) % 2 ^ 64) [] ++ removed,
        ?_, ?_, ?_, ?_⟩
      · rw [r1, hf, List.filter_filter]
        apply List.filter_congr
        intro e _
        simp only [List.map_append, List.mem_append, not_or, Bool.decide_and, Bool.and_comm]
      · rw [r2, List.filter_filter]
        apply List.filter_congr
        intro e _
        simp only [List.length_cons, hreach, not_or, Bool.decide_and, Bool.and_comm,
          ne_eq]
      · intro o ho
        rcases List.mem_append.1 ho with ho | ho
        · cases hg : h.obligationsByHeight.get? ((h.blockHeight + 1) % 2 ^ 64) with
          | none => simp only [GoMap.getD, hg, Option.getD_none, List.not_mem_nil] at ho
          | some l =>
            simp only [GoMap.getD, hg, Option.getD_some] at ho
            refine ⟨(_, l), GoMap.mem_of_get? hg, ?_, ho⟩
            simp only [List.length_cons, hreach, hb1, true_or]
        · obtain ⟨e, he1, he2, he3⟩ := r3 o ho
          refine ⟨e, (List.mem_filter.1 he1).1, ?_, he3⟩
          simp only [List.length_cons, hreach]
          exact Or.inr he2
      · intro e he1 he2 o ho
        simp only [List.length_cons, hreach] at he2
        by_cases hht : e.1 = h2.blockHeight
        · apply List.mem_append_left
          have hg : h.obligationsByHeight.get? e.1 = some e.2 := hwf.get?_of_mem he1
          rw [hht, hb1] at hg
          simpa only [GoMap.getD, hg, Option.getD_some] using ho
        · apply List.mem_append_right
          rcases he2 with he2 | he2
          · exact absurd he2 hht
          · exact r4 e (List.mem_filter.2 ⟨he1, by simpa using hht⟩) he2 o ho

/-- When `ReceiveConsensusSetUpdate` runs to its last statement (no proof fails)
on a host whose indexes agree and list each obligation under one height, the
indexes agree afterwards. -/
theorem update_finished_indexesAgree (DEBUG : Bool) (world : Nat → Answers)
    (csHeight : BlockHeight) (h : Host) (reverted applied : List Block) (r : UpdateResult)
    (hr : h.ReceiveConsensusSetUpdate DEBUG world csHeight reverted applied = .returns r)
    (hfin : r.subscribersUpdated = true)
    (hwfID : h.obligationsByID.WF) (hwfHeight : h.obligationsByHeight.WF)
    (hagree : IndexesAgree h) (honce : ListedOnce h) :
    IndexesAgree r.host := by
  unfold Host.ReceiveConsensusSetUpdate at hr
  simp only at hr
  split at hr
  · simp at hr
  · simp only [Ending.returns.injEq] at hr
    subst hr
    simp at hfin
  · next h2 p2 a2 hloop =>
    simp only [Ending.returns.injEq] at hr
    subst hr
    obtain ⟨removed, r1, r2, r3, r4⟩ := appliedLoop_finished_filter DEBUG world csHeight applied
      { h with blockHeight := wrap64 ((h.blockHeight : Int) - (reverted.length : Int)) }
      _ _ _ _ _ hwfHeight hloop
    obtain ⟨a1, a2, a3⟩ := hagree
    -- an obligation under a reached height has its ID among the removed ones
    have key : ∀ e ∈ h.obligationsByID, ∀ e1 ∈ h.obligationsByHeight, e.2 ∈ e1.2 →
        (e.1 ∈ removed.map (fun o => o.ID) ↔
          e1.1 ∈ reachedHeights (wrap64 ((h.blockHeight : Int) - (reverted.length : Int)))
            applied.length) := by
      intro e he e1 he1 hmem
      constructor
      · intro hrem
        obtain ⟨o1, ho1, hid⟩ := List.mem_map.1 hrem
        obtain ⟨e2, he2, hreach, hmem2⟩ := r3 o1 ho1
        have ho1ID : o1 ∈ h.obligationsByID.values :=
          a2 o1 (List.mem_flatten.2 ⟨e2.2, List.mem_map_of_mem Prod.snd he2, hmem2⟩)
        obtain ⟨f, hf, hf2⟩ := List.mem_map.1 ho1ID
        have hfkey : f.1 = e.1 := by rw [← a3 f hf, hf2]; exact hid
        have hg1 : h.obligationsByID.get? e.1 = some f.2 := by
          rw [← hfkey]; exact hwfID.get?_of_mem hf
        have hg2 : h.obligationsByID.get? e.1 = some e.2 := hwfID.get?_of_mem he
        have hsame : o1 = e.2 := by
          rw [hg1] at hg2
          rw [← hf2]; exact Option.some.inj hg2
        rw [hsame] at hmem2
        have := honce e2 he2 e1 he1 e.2 hmem2 hmem
        rw [← this]; exact hreach
      · intro hreach
        have := r4 e1 he1 hreach e.2 hmem
        rw [← a3 e he]
        exact List.mem_map_of_mem (fun o => o.ID) this
    refine ⟨?_, ?_, ?_⟩
    · intro o ho
      obtain ⟨e, he, rfl⟩ := List.mem_map.1 ho
      rw [r1] at he
      obtain ⟨he, hnot⟩ := List.mem_filter.1 he
      have hnot : e.1 ∉ removed.map (fun o => o.ID) := by simpa using hnot
      have hflat := a1 e.2 (List.mem_map_of_mem Prod.snd he)
      obtain ⟨l, hl, hmem⟩ := List.mem_flatten.1 hflat
      obtain ⟨e1, he1, rfl⟩ := List.mem_map.1 hl
      have hnr := fun hreach => hnot ((key e he e1 he1 hmem).2 hreach)
      refine List.mem_flatten.2 ⟨e1.2, List.mem_map_of_mem Prod.snd ?_, hmem⟩
      rw [r2]
      exact List.mem_filter.2 ⟨he1, by simpa using hnr⟩
    · intro o ho
      obtain ⟨l, hl, hmem⟩ := List.mem_flatten.1 ho
      obtain ⟨e1, he1, rfl⟩ := List.mem_map.1 hl
      rw [r2] at he1
      obtain ⟨he1, hnr⟩ := List.mem_filter.1 he1
      have hnr : e1.1 ∉ reachedHeights
          (wrap64 ((h.blockHeight : Int) - (reverted.length : Int))) applied.length := by
        simpa using hnr
      have hval := a2 o (List.mem_flatten.2 ⟨e1.2, List.mem_map_of_mem Prod.snd he1, hmem⟩)
      obtain ⟨e, he, rfl⟩ := List.mem_map.1 hval
      have hnot := fun hrem => hnr ((key e he e1 he1 hmem).1 hrem)
      refine List.mem_map.2 ⟨e, ?_, rfl⟩
      rw [r1]
      exact List.mem_filter.2 ⟨he, by simpa using hnot⟩
    · intro e he
      rw [r1] at he
      exact a3 e (List.mem_filter.1 he).1

/-- An obligation listed under the heights 1 and 3 and stored under its ID: the
two indexes hold the same set, but the obligation is not listed once. -/
theorem listedTwice_breaks_agreement :
    IndexesAgree ⟨0, [(11, exampleObligation1)],
      [(1, [exampleObligation1]), (3, [exampleObligation1])], 0⟩ ∧
    ∃ r, Host.ReceiveConsensusSetUpdate false worldAllOk 0
        ⟨0, [(11, exampleObligation1)],
          [(1, [exampleObligation1]), (3, [exampleObligation1])], 0⟩ [] [⟨0, 1, 100⟩]
        = .returns r ∧ r.subscribersUpdated = true ∧ ¬ IndexesAgree r.host :=
  ⟨by decide, _, rfl, by decide⟩

/-! ## Block database -/

namespace blockdb

theorem EncUint64_injOn (x y : Nat) (hx : x < 2 ^ 64) (hy : y < 2 ^ 64)
    (h : EncUint64 x = EncUint64 y) : x = y := by
  simp [EncUint64, List.range, List.range.loop] at h
  omega

theorem uint64_natCast (n : Nat) (h : n < 2 ^ 64) : uint64 (n : Int) = n := by
  unfold uint64 wrap64
  omega

theorem HasHeights.keyN {db : Bucket} {n : Nat} (h : HasHeights db n) : KeyN db = (n : Int) := by
  have := List.Perm.length_eq h
  simp [GoMap.keys] at this
  simp [KeyN, GoMap.len, this]

theorem HasHeights.mem_iff {db : Bucket} {n : Nat} (h : HasHeights db n) (hn : n ≤ 2 ^ 64)
    (x : Nat) (hx : x < 2 ^ 64) : EncUint64 x ∈ db.keys ↔ x < n := by
  rw [List.Perm.mem_iff h]
  simp only [List.mem_map, List.mem_range]
  constructor
  · rintro ⟨y, hy, he⟩
    have := EncUint64_injOn y x (by omega) hx he
    omega
  · intro hlt
    exact ⟨x, hlt, rfl⟩

theorem HasHeights.put {db : Bucket} {n : Nat} (h : HasHeights db n) (hn : n < 2 ^ 64)
    (value : Bytes) : HasHeights (Put db (EncUint64 n) value) (n + 1) := by
  have hnot : EncUint64 n ∉ db.keys := by
    rw [h.mem_iff (by omega) n hn]; omega
  unfold HasHeights Put
  rw [GoMap.keys_set_of_not_mem _ _ _ hnot, List.range_succ, List.map_append]
  exact List.Perm.append_right _ h

theorem HasHeights.delete_last {db : Bucket} {n : Nat} (h : HasHeights db (n + 1))
    (hn : n < 2 ^ 64) : HasHeights (Delete db (EncUint64 n)) n := by
  unfold HasHeights Delete
  rw [GoMap.keys_delete]
  have hp := List.Perm.filter (fun a => decide (a ≠ EncUint64 n)) h
  refine hp.trans ?_
  rw [List.range_succ, List.map_append, List.filter_append]
  have h1 : List.filter (fun a => decide (a ≠ EncUint64 n)) (List.map EncUint64 (List.range n))
      = List.map EncUint64 (List.range n) := by
    rw [List.filter_eq_self]
    intro a ha
    simp only [List.mem_map, List.mem_range] at ha
    obtain ⟨y, hy, rfl⟩ := ha
    have : EncUint64 y ≠ EncUint64 n := fun he => by
      have := EncUint64_injOn y n (by omega) hn he
      omega
    simpa using this
  rw [h1]
  simp

theorem HasHeights.zero_iff {db : Bucket} : HasHeights db 0 ↔ db = [] := by
  unfold HasHeights
  simp [GoMap.keys]

theorem Block_eq {β : Type} (c : Codec β) (db : Bucket) (height : BlockHeight)
    (hlt : height < 2 ^ 64) :
    Block c db height = match db.get? (EncUint64 height) with
      | none => .error .ErrUnknownBlock
      | some value =>
        match c.Unmarshal value with
        | .ok block => .ok block
        | .error msg => .error (.decode msg) := by
  unfold Block Get
  rw [Nat.mod_eq_of_lt hlt]

theorem Block_unknown_iff {β : Type} (c : Codec β) (db : Bucket) (height : BlockHeight)
    (hlt : height < 2 ^ 64) :
    Block c db height = .error .ErrUnknownBlock ↔ db.get? (EncUint64 height) = none := by
  rw [Block_eq c db height hlt]
  cases hg : db.get? (EncUint64 height) with
  | none => simp
  | some value => cases hu : c.Unmarshal value <;> simp [hu]

/-- C7: on a store whose keys are exactly the heights `0 .. n-1`, a successful
`AddBlock(b)` of a block whose encoding decodes back to it stores `b` at height
`n`: afterwards `Height()` returns `n+1`, `Block(n)` returns `b`, and `Block(h)`
answers as before for every `h < n`.  The key count `n` is a Go `int`. -/
theorem AddBlock_appends {β : Type} (c : Codec β) (db db1 : Bucket) (n : Nat) (b : β)
    (fault : Option String) (hkeys : HasHeights db n) (hn : n < 2 ^ 63)
    (hcodec : c.Unmarshal (c.Marshal b) = .ok b)
    (hadd : AddBlock c db b fault = (db1, none)) :
    Height db1 = (n + 1, none) ∧ Block c db1 n = .ok b ∧
    (∀ h, h < n → Block c db1 h = Block c db h) ∧ HasHeights db1 (n + 1) := by
  have hn64 : n < 2 ^ 64 := by omega
  cases fault with
  | some msg => simp [AddBlock, Update] at hadd
  | none =>
    simp only [AddBlock, Update, Prod.mk.injEq, and_true] at hadd
    rw [hkeys.keyN, uint64_natCast n hn64] at hadd
    subst hadd
    have hnew := hkeys.put hn64 (c.Marshal b)
    refine ⟨?_, ?_, ?_, hnew⟩
    · have h1 : uint64 ((n : Int) + 1) = n + 1 := by
        have := uint64_natCast (n + 1) (by omega)
        simpa using this
      simp [Height, hnew.keyN, h1]
    · rw [Block_eq c _ n hn64]
      simp [Put, GoMap.get?_set_self, hcodec]
    · intro h hlt
      have hne : EncUint64 h ≠ EncUint64 n := fun he => by
        have := EncUint64_injOn h n (by omega) hn64 he
        omega
      have hh64 : h < 2 ^ 64 := by omega
      rw [Block_eq c _ h hh64, Block_eq c _ h hh64]
      simp only [Put, GoMap.get?_set_of_ne _ _ _ _ hne]

/-- C7, at the example store of two blocks: block 43 goes to height 2. -/
theorem AddBlock_appends_witness :
    HasHeights exampleDB 2 ∧
    Height (AddBlock exampleCodec exampleDB 43 none).1 = (3, none) ∧
    Block exampleCodec (AddBlock exampleCodec exampleDB 43 none).1 2 = .ok 43 :=
  have h := AddBlock_appends exampleCodec exampleDB (AddBlock exampleCodec exampleDB 43 none).1
    2 43 none (by decide) (by norm_num) rfl rfl
  ⟨by decide, h.1, h.2.1⟩

theorem uint64_natCast_full : uint64 (((2 ^ 64 : Nat) : Int)) = 0 := by
  unfold uint64 wrap64
  omega

theorem HasHeights.put_full {db : Bucket} (h : HasHeights db (2 ^ 64)) (value : Bytes) :
    HasHeights (Put db (EncUint64 0) value) (2 ^ 64) := by
  have hmem : EncUint64 0 ∈ db.keys := by
    rw [h.mem_iff (le_refl _) 0 (by norm_num)]; norm_num
  unfold HasHeights Put
  rw [GoMap.keys_set_of_mem _ _ _ hmem]
  exact h

theorem run_hasHeights {β : Type} (c : Codec β) (ops : List (Op β)) :
    ∀ (db : Bucket) (n : Nat), HasHeights db n → n ≤ 2 ^ 64 →
      ∃ m, m ≤ 2 ^ 64 ∧ HasHeights (run c ops db) m := by
  induction ops with
  | nil => intro db n h hn; exact ⟨n, hn, h⟩
  | cons op ops ih =>
    intro db n h hn
    cases op with
    | AddBlock block =>
      rcases Nat.lt_or_ge n (2 ^ 64) with hlt | hge
      · have h1 : HasHeights (AddBlock c db block none).1 (n + 1) := by
          simp only [AddBlock, Update]
          rw [h.keyN, uint64_natCast n hlt]
          exact h.put hlt _
        exact ih _ (n + 1) h1 hlt
      · have hfull : n = 2 ^ 64 := le_antisymm hn hge
        subst hfull
        have h1 : HasHeights (AddBlock c db block none).1 (2 ^ 64) := by
          simp only [AddBlock, Update]
          rw [h.keyN, uint64_natCast_full]
          exact h.put_full _
        exact ih _ (2 ^ 64) h1 hn
    | RemoveBlock =>
      cases n with
      | zero =>
        have hnil : db = [] := HasHeights.zero_iff.1 h
        subst hnil
        have h1 : HasHeights (RemoveBlock ([] : Bucket) none).1 0 := by
          simp [RemoveBlock, Update, Delete, GoMap.delete, HasHeights.zero_iff]
        exact ih _ 0 h1 (by omega)
      | succ k =>
        have h1 : HasHeights (RemoveBlock db none).1 k := by
          simp only [RemoveBlock, Update]
          have hk : KeyN db - 1 = (k : Int) := by
            rw [h.keyN]; push_cast; omega
          rw [hk, uint64_natCast k (by omega)]
          exact h.delete_last (by omega)
        exact ih _ k h1 (by omega)

/-- C9: on a store reached from the empty store by successful `AddBlock` and
`RemoveBlock` calls, `RemoveBlock` on the empty store included, the keys are
exactly the heights `0 .. Height()-1`, so `Block(h)` returns `ErrUnknownBlock`
exactly when `h >= Height()`.  The key count of the store is a Go `int`, and `h`
is a `uint64`. -/
theorem reachable_keys_are_heights {β : Type} (c : Codec β) (ops : List (Op β))
    (hint : KeyN (run c ops []) < 2 ^ 63) :
    HasHeights (run c ops []) (Height (run c ops [])).1 ∧
    (Height (run c ops [])).2 = none ∧
    ∀ h, h < 2 ^ 64 →
      (Block c (run c ops []) h = .error .ErrUnknownBlock ↔ (Height (run c ops [])).1 ≤ h) := by
  obtain ⟨m, hm, hh⟩ := run_hasHeights c ops [] 0 (HasHeights.zero_iff.2 rfl) (by omega)
  have hm64 : m < 2 ^ 64 := by
    rw [hh.keyN] at hint
    omega
  have hheight : (Height (run c ops [])).1 = m := by
    simp [Height, hh.keyN, uint64_natCast m hm64]
  rw [hheight]
  refine ⟨hh, rfl, ?_⟩
  intro h hlt
  rw [Block_unknown_iff c _ h hlt, GoMap.get?_eq_none_iff, hh.mem_iff (by omega) h hlt]
  exact not_lt

/-- C9, at the example sequence of calls, which leaves two blocks. -/
theorem reachable_keys_are_heights_witness :
    KeyN (run exampleCodec exampleOps []) < 2 ^ 63 ∧
    (Height (run exampleCodec exampleOps [])).1 = 2 ∧
    Block exampleCodec (run exampleCodec exampleOps []) 2 = .error .ErrUnknownBlock ∧
    Block exampleCodec (run exampleCodec exampleOps []) 1 = .ok 42 :=
  have h := reachable_keys_are_heights exampleCodec exampleOps (by decide)
  ⟨by decide, by decide, (h.2.2 2 (by norm_num)).2 (by decide), rfl⟩

end blockdb

/-! ## Gateway: adding, removing and drawing nodes -/

/-- C13: `addNode(addr)` returns an error exactly when `addr` is in the node set
and `removeNode(addr)` exactly when it is not; on an error the gateway is left
as it was; on success `addNode` gives the old set plus `addr` and `removeNode`
the old set minus `addr`; so `removeNode(addr)` after a successful
`addNode(addr)` succeeds and restores the node set. -/
theorem addNode_removeNode_spec (g : Gateway) (addr : NetAddress) :
    ((g.addNode addr).2 ≠ none ↔ addr ∈ g.nodes.keys) ∧
    ((g.removeNode addr).2 ≠ none ↔ addr ∉ g.nodes.keys) ∧
    ((g.addNode addr).2 ≠ none → (g.addNode addr).1 = g) ∧
    ((g.removeNode addr).2 ≠ none → (g.removeNode addr).1 = g) ∧
    ((g.addNode addr).2 = none →
      ∀ a, a ∈ (g.addNode addr).1.nodes.keys ↔ a ∈ g.nodes.keys ∨ a = addr) ∧
    ((g.removeNode addr).2 = none →
      ∀ a, a ∈ (g.removeNode addr).1.nodes.keys ↔ a ∈ g.nodes.keys ∧ a ≠ addr) ∧
    ((g.addNode addr).2 = none →
      ((g.addNode addr).1.removeNode addr).2 = none ∧
      ((g.addNode addr).1.removeNode addr).1.nodes = g.nodes) := by
  by_cases h : addr ∈ g.nodes.keys
  · have hc : g.nodes.contains addr = true := (GoMap.contains_iff _ _).2 h
    simp [Gateway.addNode, Gateway.removeNode, hc, h, GoMap.keys_delete]
  · have hc : g.nodes.contains addr = false := by
      cases hb : g.nodes.contains addr with
      | false => rfl
      | true => exact absurd ((GoMap.contains_iff _ _).1 hb) h
    have hk := GoMap.keys_set_of_not_mem g.nodes addr () h
    have hs := GoMap.set_of_not_mem g.nodes addr () h
    have hc2 : GoMap.contains (g.nodes ++ [(addr, ())]) addr = true := by
      rw [GoMap.contains_iff, ← hs, hk]; simp
    have hd := GoMap.delete_append_self g.nodes addr () h
    simp [Gateway.addNode, Gateway.removeNode, hc, h, hk, hs, hc2, hd]
    intro a
    rw [← hs, hk]
    simp

/-- C13, at a gateway that knows one address: adding it again fails, and adding
and removing a new one restores the node set. -/
theorem addNode_removeNode_spec_witness :
    (exampleGateway1.addNode "10.0.0.1:9981").1 = exampleGateway1 ∧
    ((exampleGateway1.addNode "10.0.0.2:9981").1.removeNode "10.0.0.2:9981").1.nodes
      = exampleGateway1.nodes :=
  ⟨(addNode_removeNode_spec exampleGateway1 "10.0.0.1:9981").2.2.1 (by decide),
   ((addNode_removeNode_spec exampleGateway1 "10.0.0.2:9981").2.2.2.2.2.2 (by decide)).2⟩

theorem randomNodeLoop_returns (l : List NetAddress) :
    ∀ r : Int, 0 ≤ r → r < l.length → ∃ node, randomNodeLoop l r = some node ∧ node ∈ l := by
  induction l with
  | nil => intro r h0 h1; simp at h1; omega
  | cons node rest ih =>
    intro r h0 h1
    by_cases hr : r = 0
    · exact ⟨node, by simp [randomNodeLoop, hr], by simp⟩
    · obtain ⟨n, hn, hmem⟩ := ih (r - 1) (by omega) (by simp at h1; omega)
      exact ⟨n, by simp [randomNodeLoop, hr, hn], List.mem_cons_of_mem _ hmem⟩

/-- C14: for a value `r` of `rand.Intn(len(nodes))`, `randomNode` returns
`errNoPeers` exactly when the node set is empty; on a non-empty set it returns
from inside the loop body, with a nil error and a member of the node set. -/
theorem randomNode_spec (g : Gateway) (r : Int)
    (hr : g.nodes.keys ≠ [] → 0 ≤ r ∧ r < g.nodes.len) :
    ((g.randomNode r).2 = errNoPeers ↔ g.nodes.keys = []) ∧
    (g.nodes.keys ≠ [] →
      ∃ node, g.randomNodeInLoop r = some node ∧ g.randomNode r = (node, none) ∧
        node ∈ g.nodes.keys) := by
  by_cases h : g.nodes.keys = []
  · have hlen : g.nodes.len = 0 := by
      have := congrArg List.length h
      simpa [GoMap.keys, GoMap.len] using this
    simp [Gateway.randomNode, Gateway.randomNodeInLoop, hlen, h]
  · obtain ⟨h0, h1⟩ := hr h
    have hpos : g.nodes.len > 0 := by omega
    have h1 : r < (g.nodes.keys.length : Int) := by
      simpa [GoMap.keys, GoMap.len] using h1
    obtain ⟨node, hn, hmem⟩ := randomNodeLoop_returns g.nodes.keys r h0 h1
    have hin : g.randomNodeInLoop r = some node := by
      simp [Gateway.randomNodeInLoop, hpos, hn]
    have hres : g.randomNode r = (node, none) := by
      simp [Gateway.randomNode, hin]
    refine ⟨?_, fun _ => ⟨node, hin, hres, hmem⟩⟩
    rw [hres]
    simp [errNoPeers, h]

/-- C14, at a gateway that knows twelve addresses, with `r = 5`. -/
theorem randomNode_spec_witness :
    exampleGateway12.randomNode 5 = ("5", none) ∧
    (exampleGateway12.randomNode 5).2 ≠ errNoPeers :=
  have h := randomNode_spec exampleGateway12 5 (fun _ => by decide)
  ⟨by decide, fun he => absurd (h.1.1 he) (by decide)⟩

/-! ## Miner: the reported state -/

/-- C15: for every pair of thread counts, `MinerInfo` sets `State` to one of
`Off`, `Turning Off`, `On`, `Turning On`, `Decreasing number of threads.`,
each for its own comparison of the two counts; the last branch, the error state,
is never taken; and `Mining` is true exactly when `runningThreads` is not 0. -/
theorem MinerInfo_spec (m : Miner) :
    (m.MinerInfo.State = "Off" ↔ m.desiredThreads = 0 ∧ m.runningThreads = 0) ∧
    (m.MinerInfo.State = "Turning Off" ↔ m.desiredThreads = 0 ∧ m.runningThreads > 0) ∧
    (m.MinerInfo.State = "On" ↔ m.desiredThreads = m.runningThreads ∧ m.desiredThreads ≠ 0) ∧
    (m.MinerInfo.State = "Turning On" ↔ m.desiredThreads > m.runningThreads) ∧
    (m.MinerInfo.State = "Decreasing number of threads." ↔
      m.desiredThreads < m.runningThreads ∧ m.desiredThreads ≠ 0) ∧
    m.MinerInfo.State ≠ "Miner is in an ERROR state!" ∧
    m.MinerInfo.State ∈
      ["Off", "Turning Off", "On", "Turning On", "Decreasing number of threads."] ∧
    (m.MinerInfo.Mining = true ↔ m.runningThreads ≠ 0) := by
  simp only [Miner.MinerInfo, minerState]
  by_cases h1 : m.desiredThreads = 0 ∧ m.runningThreads = 0
  · obtain ⟨hd, hr⟩ := h1
    simp [hd, hr]
  · by_cases h2 : m.desiredThreads = 0 ∧ m.runningThreads > 0
    · obtain ⟨hd, hr⟩ := h2
      have hr2 : m.runningThreads ≠ 0 := by omega
      have hr3 : 0 ≤ m.runningThreads := by omega
      simp [hd, hr, hr2, hr3]
    · by_cases h3 : m.desiredThreads = m.runningThreads
      · have hd : m.desiredThreads ≠ 0 := by
          intro hd; exact h1 ⟨hd, by omega⟩
        have hr : m.runningThreads ≠ 0 := by omega
        simp only [if_neg h1, if_neg h2, if_pos h3]
        simp [← h3, hd]
      · by_cases h4 : m.desiredThreads > m.runningThreads
        · have hr : ¬ (m.desiredThreads = 0 ∧ m.runningThreads = 0) := h1
          have hlt : ¬ m.desiredThreads < m.runningThreads := by omega
          have hr0 : m.desiredThreads = 0 → m.runningThreads ≠ 0 := by omega
          simp only [if_neg h1, if_neg h2, if_neg h3, if_pos h4]
          simp [h3, h4, hlt]
          omega
        · have h5 : m.desiredThreads < m.runningThreads := by omega
          have hd : m.desiredThreads ≠ 0 := by
            intro hd; exact h2 ⟨hd, by omega⟩
          simp only [if_neg h1, if_neg h2, if_neg h3, if_neg h4, if_pos h5]
          simp [h3, h4, h5, hd]

/-! ## Consensus: lookups on the current path -/

theorem wrap64_pred (n : Nat) (hpos : 0 < n) (hint : n < 2 ^ 63) :
    wrap64 ((n : Int) - 1) = n - 1 := by
  unfold wrap64
  omega

theorem State.height_eq (s : State) (hne : s.currentPath ≠ [])
    (hint : s.currentPath.length < 2 ^ 63) : s.height = s.currentPath.length - 1 := by
  have hpos : 0 < s.currentPath.length := List.length_pos.2 hne
  exact wrap64_pred s.currentPath.length hpos hint

theorem State.node_on_path (s : State)
    (hmap : ∀ id ∈ s.currentPath, s.blockMap.contains id = true) (h : Nat)
    (hlt : h < s.currentPath.length) :
    ∃ id node, s.currentPath[h]? = some id ∧ s.blockMap.get? id = some node := by
  have hid : s.currentPath[h]? = some s.currentPath[h] := List.getElem?_eq_getElem hlt
  have hc := hmap s.currentPath[h] (List.getElem_mem hlt)
  unfold GoMap.contains at hc
  obtain ⟨node, hnode⟩ := Option.isSome_iff_exists.1 hc
  exact ⟨s.currentPath[h], node, hid, hnode⟩

/-- C11: on a state whose `currentPath` is not empty and names only nodes of
`blockMap`, `Height()` is `len(currentPath) - 1`; `BlockAtHeight(h)` returns
`exists = true` exactly when `h <= Height()`, and then the block of the node
that `currentPath[h]` names; `CurrentBlock()` returns the block that
`BlockAtHeight(Height())` returns.  The length of `currentPath` is a Go `int`. -/
theorem currentPath_lookups (s : State) (hne : s.currentPath ≠ [])
    (hmap : ∀ id ∈ s.currentPath, s.blockMap.contains id = true)
    (hint : s.currentPath.length < 2 ^ 63) :
    s.Height = s.currentPath.length - 1 ∧
    (∀ h : BlockHeight, ∃ b,
      s.BlockAtHeight h = .returns (b, decide (h ≤ s.Height)) ∧
      (h ≤ s.Height → ∃ id node, s.currentPath[h]? = some id ∧
        s.blockMap.get? id = some node ∧ b = node.block)) ∧
    (∃ b, s.CurrentBlock = .returns b ∧ s.BlockAtHeight s.Height = .returns (b, true)) := by
  have hheight := s.height_eq hne hint
  have hpos : 0 < s.currentPath.length := List.length_pos.2 hne
  have hpred : s.currentPath.length - 1 < s.currentPath.length := by omega
  refine ⟨hheight, ?_, ?_⟩
  · intro h
    by_cases hle : h ≤ s.height
    · have hle2 : Nat.le h (s.currentPath.length - 1) := hheight ▸ hle
      have hlt : h < s.currentPath.length := Nat.lt_of_le_of_lt hle2 hpred
      obtain ⟨id, node, hid, hnode⟩ := s.node_on_path hmap h hlt
      refine ⟨node.block, ?_, fun _ => ⟨id, node, hid, hnode, rfl⟩⟩
      simp [State.BlockAtHeight, State.blockAtHeight, State.Height, hle, hid, hnode]
    · refine ⟨Block.zero, ?_, fun hle2 => absurd hle2 hle⟩
      simp [State.BlockAtHeight, State.blockAtHeight, State.Height, hle]
  · have hlt : s.height < s.currentPath.length := by
      rw [hheight]; exact hpred
    obtain ⟨id, node, hid, hnode⟩ := s.node_on_path hmap s.height hlt
    refine ⟨node.block, ?_, ?_⟩
    · simp [State.CurrentBlock, State.currentBlockNode, State.currentBlockID, hid, hnode]
    · simp [State.BlockAtHeight, State.blockAtHeight, State.Height, hid, hnode]

/-- C11, at the example chain of two blocks. -/
theorem currentPath_lookups_witness :
    exampleChain.Height = 1 ∧
    exampleChain.CurrentBlock = .returns exampleNode2.block ∧
    exampleChain.BlockAtHeight 1 = .returns (exampleNode2.block, true) ∧
    exampleChain.BlockAtHeight 2 = .returns (Block.zero, false) :=
  have h := currentPath_lookups exampleChain (by decide) (by decide) (by decide)
  ⟨h.1, by decide, by decide, by decide⟩

/-! ## Host announcement: encode and decode -/

theorem length_EncUint64 (n : Nat) : (blockdb.EncUint64 n).length = 8 := by
  simp [blockdb.EncUint64]

theorem DecUint64_EncUint64 (n : Nat) (h : n < 2 ^ 64) : DecUint64 (blockdb.EncUint64 n) = n := by
  simp [DecUint64, blockdb.EncUint64, List.range, List.range.loop]
  omega

theorem netAddressOfBytes_netAddressBytes (addr : NetAddress) :
    netAddressOfBytes (netAddressBytes addr) = addr := by
  have hfun : (Char.ofNat ∘ Char.toNat) = id := by
    funext c; simp
  simp [netAddressOfBytes, netAddressBytes, List.map_map, hfun]

theorem TrimPrefix_append (p x : blockdb.Bytes) : TrimPrefix (p ++ x) p = x := by
  have hp : p.isPrefixOf (p ++ x) = true :=
    List.isPrefixOf_iff_prefix.2 (List.prefix_append p x)
  simp [TrimPrefix, hp]

theorem Unmarshal_Marshal (ha : HostAnnouncement) (hlen : ha.IPAddress.length < 2 ^ 64) :
    UnmarshalAnnouncement (MarshalAnnouncement ha) = .ok ha := by
  have hbytes : (netAddressBytes ha.IPAddress).length = ha.IPAddress.length := by
    unfold netAddressBytes
    rw [List.length_map]
    rfl
  have hmod : (netAddressBytes ha.IPAddress).length % 2 ^ 64
      = (netAddressBytes ha.IPAddress).length := Nat.mod_eq_of_lt (by omega)
  have h8 := length_EncUint64 (netAddressBytes ha.IPAddress).length
  have htake : (MarshalAnnouncement ha).take 8
      = blockdb.EncUint64 (netAddressBytes ha.IPAddress).length := by
    rw [MarshalAnnouncement, hmod, ← h8, List.take_left']
    exact h8.symm ▸ rfl
  have hdrop : (MarshalAnnouncement ha).drop 8 = netAddressBytes ha.IPAddress := by
    rw [MarshalAnnouncement, hmod, ← h8, List.drop_left']
    exact h8.symm ▸ rfl
  have hdec := DecUint64_EncUint64 (netAddressBytes ha.IPAddress).length (by omega)
  have hlen8 : ¬ (MarshalAnnouncement ha).length < 8 := by
    rw [MarshalAnnouncement, List.length_append, length_EncUint64]
    omega
  unfold UnmarshalAnnouncement
  rw [if_neg hlen8, htake, hdrop, hdec, if_neg (Nat.lt_irrefl _), List.take_length,
    netAddressOfBytes_netAddressBytes]

/-- C12 (amended): a successful `Announce()` adds exactly one transaction to the
transaction pool, at its end, so a pool that was empty before the call, as in
the host tester, holds exactly one transaction afterwards; the first
arbitrary-data entry of the transaction added, with `PrefixHostAnnouncement`
stripped, decodes without error to a `HostAnnouncement` whose `IPAddress` is the
address of the host.  The length of the address is a Go `int`. -/
theorem Announce_roundtrip (PrefixHostAnnouncement : blockdb.Bytes) (w : AnnounceAnswers)
    (h h1 : Announcer) (hlen : h.myAddr.length < 2 ^ 63)
    (hok : Announce PrefixHostAnnouncement w h = (h1, none)) :
    (h.tpool = [] → h1.tpool.length = 1) ∧
    h1.tpool.length = h.tpool.length + 1 ∧
    ∃ t d, h1.tpool = h.tpool ++ [t] ∧ t.ArbitraryData.head? = some d ∧
      UnmarshalAnnouncement (TrimPrefix d PrefixHostAnnouncement) = .ok ⟨h.myAddr⟩ := by
  have hround : UnmarshalAnnouncement (MarshalAnnouncement ⟨h.myAddr⟩) = .ok ⟨h.myAddr⟩ :=
    Unmarshal_Marshal ⟨h.myAddr⟩ (show h.myAddr.length < 2 ^ 64 by omega)
  unfold Announce at hok
  cases h1w : w.register with
  | some err => simp [h1w] at hok
  | none =>
    cases h2w : w.addData with
    | some err => simp [h1w, h2w] at hok
    | none =>
      cases h3w : w.sign with
      | some err => simp [h1w, h2w, h3w] at hok
      | none =>
        cases h4w : w.accept with
        | some err => simp [h1w, h2w, h3w, h4w] at hok
        | none =>
          simp only [h1w, h2w, h3w, h4w, Prod.mk.injEq, and_true] at hok
          subst hok
          refine ⟨fun hempty => by simp [hempty], by simp, _, _, rfl, rfl, ?_⟩
          rw [TrimPrefix_append]
          exact hround

/-- C12 (amended), at the example host with the empty pool and at the example
host with one pooled transaction, with the bytes of `HostAnnouncement` for the
prefix: the call succeeds; the empty pool holds one transaction afterwards and
the other pool two. -/
theorem Announce_roundtrip_witness :
    (Announce examplePrefix announceAllOk exampleAnnouncer).2 = none ∧
    (Announce examplePrefix announceAllOk exampleAnnouncer).1.tpool.length = 1 ∧
    (Announce examplePrefix announceAllOk exampleBusyAnnouncer).1.tpool.length
      = exampleBusyAnnouncer.tpool.length + 1 :=
  ⟨rfl,
   (Announce_roundtrip examplePrefix announceAllOk exampleAnnouncer
     (Announce examplePrefix announceAllOk exampleAnnouncer).1 (by decide) rfl).1 rfl,
   (Announce_roundtrip examplePrefix announceAllOk exampleBusyAnnouncer
     (Announce examplePrefix announceAllOk exampleBusyAnnouncer).1 (by decide) rfl).2.1⟩

/-- C12 (the claim as stated fails): on a host whose transaction pool already
holds one transaction, `Announce()` succeeds and the pool holds two transactions
afterwards, not exactly one; the first of them is the old one, whose first
arbitrary-data entry does not decode. -/
theorem Announce_on_nonempty_pool :
    (Announce examplePrefix announceAllOk exampleBusyAnnouncer).2 = none ∧
    (Announce examplePrefix announceAllOk exampleBusyAnnouncer).1.tpool.length = 2 ∧
    (Announce examplePrefix announceAllOk exampleBusyAnnouncer).1.tpool.length ≠ 1 ∧
    (Announce examplePrefix announceAllOk exampleBusyAnnouncer).1.tpool.head?
      = some ⟨[[1, 2, 3]]⟩ ∧
    UnmarshalAnnouncement (TrimPrefix [1, 2, 3] examplePrefix)
      = .error "MalformedEncoding" :=
  ⟨rfl, rfl, by decide, rfl, rfl⟩

end Sia
